import Mathlib

/-!
# Savefile writer (`save.c`): embedding and verified properties

The writer functions of `save.c` send their output to one append-only sink
through the primitive codec (`wr_byte`, `wr_u16b`, `wr_s16b`, `wr_u32b`,
`wr_s32b`, `wr_string`).  Each writer is embedded as the function giving the
sequence of primitive writes it performs, in order; running two writers one
after the other is list append.  C arrays are functions from the index, and
`next`-linked chains are lists in chain order.
-/

namespace Save

/-! ## Primitive codec -/

/-- Modelled from the spec: the primitive codec of savefile.c is not in the
source, so one value of this type stands for one call of a primitive write,
holding the value as converted to the width of the field. -/
inductive Write where
  | byte (v : Nat)
  | u16b (v : Nat)
  | s16b (v : Int)
  | u32b (v : Nat)
  | s32b (v : Int)
  | string (s : String)
  deriving DecidableEq

/-- Modelled from the spec: wr_byte of savefile.c, one unsigned 8-bit write. -/
def wr_byte (v : Nat) : List Write := [Write.byte (v % 256)]

/-- Modelled from the spec: wr_u16b of savefile.c, one unsigned 16-bit write. -/
def wr_u16b (v : Nat) : List Write := [Write.u16b (v % 65536)]

/-- Modelled from the spec: wr_s16b of savefile.c, one signed 16-bit write. -/
def wr_s16b (v : Int) : List Write := [Write.s16b ((v + 32768) % 65536 - 32768)]

/-- Modelled from the spec: wr_u32b of savefile.c, one unsigned 32-bit write. -/
def wr_u32b (v : Nat) : List Write := [Write.u32b (v % 4294967296)]

/-- Modelled from the spec: wr_s32b of savefile.c, one signed 32-bit write. -/
def wr_s32b (v : Int) : List Write :=
  [Write.s32b ((v + 2147483648) % 4294967296 - 2147483648)]

/-- Modelled from the spec: wr_string of savefile.c, the raw bytes of the
string followed by one terminator byte, taken as one write. -/
def wr_string (s : String) : List Write := [Write.string s]

/-- Modelled from the spec: MAX_UCHAR of h-basic.h, the largest value of a
byte, is the 255 cap of the run length. -/
def MAX_UCHAR : Nat := 255

/-! ## Run-length loop of `wr_dungeon_aux` -/

/-- The local variables `count` and `prev_char` of wr_dungeon_aux, and what
the loop has written so far. -/
structure rle_state where
  count : Nat
  prev_char : Nat
  out : List Write
  deriving DecidableEq

/-- Body of the inner loop of wr_dungeon_aux (save.c 655-664, and again
683-692) for the extracted cell byte `tmp8u`. -/
def rle_step (st : rle_state) (tmp8u : Nat) : rle_state :=
  if tmp8u ≠ st.prev_char ∨ st.count = MAX_UCHAR then
    { count := 1, prev_char := tmp8u,
      out := st.out ++ wr_byte st.count ++ wr_byte st.prev_char }
  else
    { st with count := (st.count + 1) % 256 }

/-- The nested loops `for y < height` / `for x < width` of wr_dungeon_aux
(save.c 652-666, 680-694); `cell y x` is the byte read from the square. -/
def rle_scan (height width : Nat) (cell : Nat → Nat → Nat) (st : rle_state) : rle_state :=
  (List.range height).foldl
    (fun st y => (List.range width).foldl (fun st x => rle_step st (cell y x % 256)) st) st

/-- The final flush `if (count) ...` (save.c 668-672, 696-700). -/
def rle_flush (st : rle_state) : List Write :=
  if st.count ≠ 0 then st.out ++ wr_byte st.count ++ wr_byte st.prev_char else st.out

/-- Everything the run-length loop writes for one plane: `count = 0`,
`prev_char = 0`, the scan, then the flush. -/
def rle_plane (height width : Nat) (cell : Nat → Nat → Nat) : List Write :=
  rle_flush (rle_scan height width cell { count := 0, prev_char := 0, out := [] })

/-! ## Reading the run-length output -/

/-- The (length, value) pairs of a run of byte writes, two bytes at a time. -/
def pairs_of : List Write → List (Nat × Nat)
  | Write.byte l :: Write.byte v :: rest => (l, v) :: pairs_of rest
  | _ => []

/-- The byte writes of a list of (length, value) pairs. -/
def pair_bytes (ps : List (Nat × Nat)) : List Write :=
  ps.flatMap (fun p => [Write.byte p.1, Write.byte p.2])

/-- Each pair expanded into `length` copies of `value`, in order. -/
def expand (ps : List (Nat × Nat)) : List Nat :=
  ps.flatMap (fun p => List.replicate p.1 p.2)

/-- The cells of a plane in row-major order, as bytes. -/
def plane_cells (height width : Nat) (cell : Nat → Nat → Nat) : List Nat :=
  (List.range height).flatMap (fun y => (List.range width).map (fun x => cell y x % 256))

/-- Failure of a decoder. -/
inductive FormatError where
  | FormatCorrupt
  deriving DecidableEq

/-- Modelled from the spec: the reference decoder of the run-length pairs (the
reader is not in the source); it fills the W×H cells in row-major order and
fails when the lengths do not sum to W×H. -/
def decode_rle (height width : Nat) (ps : List (Nat × Nat)) : Except FormatError (List Nat) :=
  if (ps.map Prod.fst).sum = width * height then Except.ok (expand ps)
  else Except.error FormatError.FormatCorrupt

/-! ## Data model (the fields the writers read) -/

/-- The sizes and tables that save.c takes from headers and other files of the
game (they are not in the source), as parameters of the embedding. -/
structure config where
  ITEM_VERSION : Nat
  OF_SIZE : Nat
  ID_SIZE : Nat
  OBJ_MOD_MAX : Nat
  ELEM_MAX : Nat
  MON_TMD_MAX : Nat
  MFLAG_SIZE : Nat
  TRF_SIZE : Nat
  SQUARE_SIZE : Nat
  MAX_STORES : Nat
  quark_str : Nat → String

/-- An artifact table entry: `aidx`. -/
structure artifact where
  aidx : Nat
  deriving DecidableEq

/-- An ego-item table entry: `eidx`. -/
structure ego_item where
  eidx : Nat
  deriving DecidableEq

/-- An activation table entry: `index`. -/
structure activation where
  index : Nat
  deriving DecidableEq

/-- One element of a brand chain (without its `next` pointer). -/
structure brand where
  name : String
  element : Int
  multiplier : Int
  known : Bool
  deriving DecidableEq

/-- One element of a slay chain (without its `next` pointer). -/
structure slay where
  name : String
  race_flag : Int
  multiplier : Int
  known : Bool
  deriving DecidableEq

/-- One entry of `el_info`. -/
structure element_info where
  res_level : Int
  flags : Nat
  deriving DecidableEq

/-- The timing triple `time` of an object. -/
structure random_value where
  base : Nat
  dice : Nat
  sides : Nat
  deriving DecidableEq

/-- An object, without its `next` pointer: a chain of objects is a list.
A pointer that may be NULL is an `Option`; `note` is a quark, 0 for none. -/
structure object where
  iy : Nat
  ix : Nat
  tval : Nat
  sval : Nat
  pval : Int
  number : Nat
  weight : Int
  artifact : Option artifact
  ego : Option ego_item
  timeout : Int
  to_h : Int
  to_d : Int
  to_a : Int
  ac : Int
  dd : Nat
  ds : Nat
  marked : Nat
  origin : Nat
  origin_depth : Nat
  origin_xtra : Nat
  ignore : Nat
  flags : Nat → Nat
  known_flags : Nat → Nat
  id_flags : Nat → Nat
  modifiers : Nat → Int
  brands : List brand
  slays : List slay
  el_info : Nat → element_info
  held_m_idx : Int
  mimicking_m_idx : Int
  activation : Option activation
  time : random_value
  note : Nat

/-- The object that `mem_zalloc(sizeof(*dummy))` gives (save.c 731): every
field zero, every pointer NULL. -/
def zero_object : object :=
  { iy := 0, ix := 0, tval := 0, sval := 0, pval := 0, number := 0, weight := 0,
    artifact := none, ego := none, timeout := 0, to_h := 0, to_d := 0, to_a := 0,
    ac := 0, dd := 0, ds := 0, marked := 0, origin := 0, origin_depth := 0,
    origin_xtra := 0, ignore := 0, flags := fun _ => 0, known_flags := fun _ => 0,
    id_flags := fun _ => 0, modifiers := fun _ => 0, brands := [], slays := [],
    el_info := fun _ => { res_level := 0, flags := 0 }, held_m_idx := 0,
    mimicking_m_idx := 0, activation := none, time := { base := 0, dice := 0, sides := 0 },
    note := 0 }

/-- Modelled from the spec: object_new of the object code is not in the source;
the spec has the dummy as a freshly created all-default, all-zero item. -/
def object_new : object := zero_object

/-- A monster race: `ridx`. -/
structure monster_race where
  ridx : Int
  deriving DecidableEq

/-- The `known_pstate` of a monster: the fields wr_monster reads. -/
structure player_state where
  flags : Nat → Nat
  el_info : Nat → element_info

/-- A monster. -/
structure monster where
  race : monster_race
  fy : Nat
  fx : Nat
  hp : Int
  maxhp : Int
  mspeed : Nat
  energy : Nat
  m_timed : Nat → Int
  mflag : Nat → Nat
  known_pstate : player_state
  mimicked_obj : Option object
  held_obj : List object

/-- A trap, without its `next` pointer. -/
structure trap where
  t_idx : Nat
  fy : Nat
  fx : Nat
  xtra : Nat
  flags : Nat → Nat

/-- The trap that `mem_zalloc(sizeof(*dummy))` gives (save.c 778). -/
def zero_trap : trap :=
  { t_idx := 0, fy := 0, fx := 0, xtra := 0, flags := fun _ => 0 }

/-- One square of a chunk: info flag bytes, terrain feature, object chain, trap chain. -/
structure square where
  info : Nat → Nat
  feat : Nat
  obj : List object
  trap : List trap

/-- A chunk; `mon_max` is what `cave_monster_max(c)` returns and `monsters i`
what `cave_monster(c, i)` points to. -/
structure chunk where
  name : Option String
  height : Nat
  width : Nat
  squares : Nat → Nat → square
  feeling : Nat
  feeling_squares : Nat
  created_at : Int
  mon_max : Nat
  monsters : Nat → monster

/-- The fields of the player that the dungeon writers read. -/
structure player where
  is_dead : Bool
  depth : Nat
  py : Nat
  px : Nat

/-- The globals that the dungeon and chunk writers read. -/
structure world where
  player : player
  daycount : Nat
  cave : chunk
  cave_k : chunk
  chunk_list : Nat → chunk
  chunk_list_max : Nat

/-- The message log as wr_messages sees it: `messages_num()`, `message_str(i)`
and `message_type(i)`, with `i` the age of the message (0 the most recent). -/
structure message_log where
  messages_num : Nat
  message_str : Nat → String
  message_type : Nat → Nat

/-- The loop over the brand chain (save.c 124-130); `b->next` is non-NULL
when the rest of the chain is not empty. -/
def wr_item_brand_loop : List brand → List Write
  | [] => []
  | b :: next =>
    wr_string b.name ++ wr_s16b b.element ++ wr_s16b b.multiplier ++
      wr_byte (if b.known then 1 else 0) ++ wr_byte (if next.isEmpty then 0 else 1) ++
      wr_item_brand_loop next

/-- The loop over the slay chain (save.c 134-140). -/
def wr_item_slay_loop : List slay → List Write
  | [] => []
  | s :: next =>
    wr_string s.name ++ wr_s16b s.race_flag ++ wr_s16b s.multiplier ++
      wr_byte (if s.known then 1 else 0) ++ wr_byte (if next.isEmpty then 0 else 1) ++
      wr_item_slay_loop next

/-- First part of wr_item (save.c 72-120): marker, version and the fixed fields. -/
def wr_item_fields (K : config) (obj : object) : List Write :=
  wr_u16b 0xffff ++ wr_byte K.ITEM_VERSION ++
  wr_byte obj.iy ++ wr_byte obj.ix ++
  wr_byte obj.tval ++ wr_byte obj.sval ++
  wr_s16b obj.pval ++
  wr_byte obj.number ++ wr_s16b obj.weight ++
  (match obj.artifact with
    | some a => wr_byte a.aidx
    | none => wr_byte 0) ++
  (match obj.ego with
    | some e => wr_byte e.eidx
    | none => wr_byte 0) ++
  wr_s16b obj.timeout ++
  wr_s16b obj.to_h ++ wr_s16b obj.to_d ++ wr_s16b obj.to_a ++ wr_s16b obj.ac ++
  wr_byte obj.dd ++ wr_byte obj.ds ++
  wr_byte obj.marked ++
  wr_byte obj.origin ++ wr_byte obj.origin_depth ++ wr_u16b obj.origin_xtra ++
  wr_byte obj.ignore ++
  (List.range K.OF_SIZE).flatMap (fun i => wr_byte (obj.flags i)) ++
  (List.range K.OF_SIZE).flatMap (fun i => wr_byte (obj.known_flags i)) ++
  (List.range K.ID_SIZE).flatMap (fun i => wr_byte (obj.id_flags i)) ++
  (List.range K.OBJ_MOD_MAX).flatMap (fun i => wr_s16b (obj.modifiers i))

/-- The brands of wr_item (save.c 122-130): sentinel byte, then the chain. -/
def wr_item_brands (obj : object) : List Write :=
  wr_byte (if obj.brands.isEmpty then 0 else 1) ++ wr_item_brand_loop obj.brands

/-- The slays of wr_item (save.c 132-140): sentinel byte, then the chain. -/
def wr_item_slays (obj : object) : List Write :=
  wr_byte (if obj.slays.isEmpty then 0 else 1) ++ wr_item_slay_loop obj.slays

/-- Last part of wr_item (save.c 142-165): elements, indices, activation,
timing and inscription. -/
def wr_item_rest (K : config) (obj : object) : List Write :=
  (List.range K.ELEM_MAX).flatMap
    (fun i => wr_s16b (obj.el_info i).res_level ++ wr_byte (obj.el_info i).flags) ++
  wr_s16b obj.held_m_idx ++
  wr_s16b obj.mimicking_m_idx ++
  (match obj.activation with
    | some a => wr_u16b a.index
    | none => wr_u16b 0) ++
  wr_u16b obj.time.base ++ wr_u16b obj.time.dice ++ wr_u16b obj.time.sides ++
  (if obj.note ≠ 0 then wr_string (K.quark_str obj.note) else wr_string "")

/-- Function wr_item (save.c 66-166), its four parts in order. -/
def wr_item (K : config) (obj : object) : List Write :=
  wr_item_fields K obj ++ wr_item_brands obj ++ wr_item_slays obj ++ wr_item_rest K obj

/-- The loop `while (obj)` that calls wr_item and follows `next` (save.c 207-210,
723-726, and the `for` of 619-620). -/
def wr_item_chain (K : config) : List object → List Write
  | [] => []
  | obj :: next => wr_item K obj ++ wr_item_chain K next

/-- First part of wr_monster (save.c 178-204): the fields and the mimicked object. -/
def wr_monster_fields (K : config) (mon : monster) : List Write :=
  wr_s16b mon.race.ridx ++
  wr_byte mon.fy ++ wr_byte mon.fx ++
  wr_s16b mon.hp ++ wr_s16b mon.maxhp ++
  wr_byte mon.mspeed ++ wr_byte mon.energy ++
  wr_byte K.MON_TMD_MAX ++
  (List.range K.MON_TMD_MAX).flatMap (fun j => wr_s16b (mon.m_timed j)) ++
  (List.range K.MFLAG_SIZE).flatMap (fun j => wr_byte (mon.mflag j)) ++
  (List.range K.OF_SIZE).flatMap (fun j => wr_byte (mon.known_pstate.flags j)) ++
  (List.range K.ELEM_MAX).flatMap (fun j => wr_s16b (mon.known_pstate.el_info j).res_level) ++
  (match mon.mimicked_obj with
    | some obj => wr_byte 1 ++ wr_item K obj
    | none => wr_byte 0)

/-- Function wr_monster (save.c 172-213): the fields, the held objects, then
the dummy made by object_new. -/
def wr_monster (K : config) (mon : monster) : List Write :=
  wr_monster_fields K mon ++ wr_item_chain K mon.held_obj ++ wr_item K object_new

/-- Function wr_trap (save.c 218-229). -/
def wr_trap (K : config) (t : trap) : List Write :=
  wr_byte t.t_idx ++ wr_byte t.fy ++ wr_byte t.fx ++ wr_byte t.xtra ++
  (List.range K.TRF_SIZE).flatMap (fun i => wr_byte (t.flags i))

/-- The loop `while (trap)` that calls wr_trap and follows `next` (save.c 770-773). -/
def wr_trap_chain (K : config) : List trap → List Write
  | [] => []
  | t :: next => wr_trap K t ++ wr_trap_chain K next

/-- Function wr_messages (save.c 290-304); `num` is a u16b and `i` runs from
`num - 1` down to 0. -/
def wr_messages (L : message_log) : List Write :=
  let num := L.messages_num % 65536
  let num := if num > 80 then 80 else num
  wr_u16b num ++
  (List.range num).reverse.flatMap
    (fun i => wr_string (L.message_str i) ++ wr_u16b (L.message_type i))

/-- Function wr_dungeon_aux (save.c 631-706). -/
def wr_dungeon_aux (K : config) (c : chunk) : List Write :=
  wr_string (match c.name with
    | some n => n
    | none => "Blank") ++
  wr_u16b c.height ++
  wr_u16b c.width ++
  (List.range K.SQUARE_SIZE).flatMap
    (fun i => rle_plane c.height c.width (fun y x => (c.squares y x).info i)) ++
  rle_plane c.height c.width (fun y x => (c.squares y x).feat) ++
  wr_byte c.feeling ++
  wr_u16b c.feeling_squares ++
  wr_s32b c.created_at

/-- Function wr_objects_aux (save.c 711-734). -/
def wr_objects_aux (K : config) (p : player) (c : chunk) : List Write :=
  if p.is_dead then []
  else
    (List.range c.height).flatMap
      (fun y => (List.range c.width).flatMap (fun x => wr_item_chain K (c.squares y x).obj)) ++
    wr_item K zero_object

/-- Function wr_monsters_aux (save.c 739-755); `i` runs from 1 to `mon_max - 1`. -/
def wr_monsters_aux (K : config) (p : player) (c : chunk) : List Write :=
  if p.is_dead then []
  else
    wr_u16b c.mon_max ++
    (List.range' 1 (c.mon_max - 1)).flatMap (fun i => wr_monster K (c.monsters i))

/-- Function wr_traps_aux (save.c 757-781). -/
def wr_traps_aux (K : config) (p : player) (c : chunk) : List Write :=
  if p.is_dead then []
  else
    wr_byte K.TRF_SIZE ++
    (List.range c.height).flatMap
      (fun y => (List.range c.width).flatMap (fun x => wr_trap_chain K (c.squares y x).trap)) ++
    wr_trap K zero_trap

/-- Function wr_dungeon (save.c 783-801): what it writes.  The call of
compact_monsters at its end changes the monster table and writes nothing. -/
def wr_dungeon (K : config) (W : world) : List Write :=
  if W.player.is_dead then []
  else
    wr_u16b W.player.depth ++
    wr_u16b W.daycount ++
    wr_u16b W.player.py ++
    wr_u16b W.player.px ++
    wr_byte K.SQUARE_SIZE ++
    wr_dungeon_aux K W.cave ++
    wr_dungeon_aux K W.cave_k

/-- Function wr_objects (save.c 804-808). -/
def wr_objects (K : config) (W : world) : List Write :=
  wr_objects_aux K W.player W.cave ++ wr_objects_aux K W.player W.cave_k

/-- Function wr_monsters (save.c 810-814). -/
def wr_monsters (K : config) (W : world) : List Write :=
  wr_monsters_aux K W.player W.cave ++ wr_monsters_aux K W.player W.cave_k

/-- Function wr_traps (save.c 816-820). -/
def wr_traps (K : config) (W : world) : List Write :=
  wr_traps_aux K W.player W.cave ++ wr_traps_aux K W.player W.cave_k

/-- Function wr_chunks (save.c 825-850). -/
def wr_chunks (K : config) (W : world) : List Write :=
  if W.player.is_dead then []
  else
    wr_u16b W.chunk_list_max ++
    (List.range W.chunk_list_max).flatMap
      (fun j =>
        wr_dungeon_aux K (W.chunk_list j) ++
        wr_objects_aux K W.player (W.chunk_list j) ++
        wr_monsters_aux K W.player (W.chunk_list j) ++
        wr_traps_aux K W.player (W.chunk_list j))

/-! ## Run-length pairs, as the spec words them -/

/-- The pairs of a cell sequence that continues a run of `n` cells of value
`v`: the run is closed when the next cell differs from `v` or when its length
has reached 255, and the last run is closed at the end of the sequence. -/
def run_from (v n : Nat) : List Nat → List (Nat × Nat)
  | [] => [(n, v)]
  | c :: cs => if c = v ∧ n < 255 then run_from v (n + 1) cs else (n, v) :: run_from c 1 cs

/-- The (length, value) pairs of the maximal runs of equal cells of a cell
sequence, a run longer than 255 being cut into pairs of length 255 followed
by the remainder; no pair for the empty sequence. -/
def rle_runs : List Nat → List (Nat × Nat)
  | [] => []
  | c :: cs => run_from c 1 cs

/-- The pair of the empty initial run: (0,0) when the sequence starts with a
cell that is not 0, nothing otherwise. -/
def leading_pair : List Nat → List (Nat × Nat)
  | [] => []
  | c :: _ => if c ≠ 0 then [(0, 0)] else []

/-- A sequence of pairs all of whose lengths are in [1,255]: what a run-length
encoding under the 255 cap may use. -/
def valid_pairs (ps : List (Nat × Nat)) : Prop :=
  ∀ p ∈ ps, 1 ≤ p.1 ∧ p.1 ≤ 255

/-! ## Continuation-flagged chains, as the spec words them -/

/-- The has-next bytes of a chain of `n` elements: `n - 1` times 1, then 0;
none for an empty chain. -/
def has_next_bytes : Nat → List Nat
  | 0 => []
  | m + 1 => List.replicate m 1 ++ [0]

/-- One brand of a chain: name string, element (s16), multiplier (s16), known
byte, has-next byte. -/
def brand_record (b : brand) (has_next : Nat) : List Write :=
  wr_string b.name ++ wr_s16b b.element ++ wr_s16b b.multiplier ++
    wr_byte (if b.known then 1 else 0) ++ wr_byte has_next

/-- One slay of a chain: name string, race flag (s16), multiplier (s16), known
byte, has-next byte. -/
def slay_record (s : slay) (has_next : Nat) : List Write :=
  wr_string s.name ++ wr_s16b s.race_flag ++ wr_s16b s.multiplier ++
    wr_byte (if s.known then 1 else 0) ++ wr_byte has_next

/-! ## Concrete inputs -/

/-- The two brands of scenario B. -/
def brands_B : List brand :=
  [{ name := "Fire", element := 1, multiplier := 3, known := true },
   { name := "Cold", element := 2, multiplier := 2, known := false }]


/-- The 3×3 terrain grid `[[1,1,2],[2,2,2],[3,1,1]]` of scenario A. -/
def grid_A (y x : Nat) : Nat :=
  (([[1, 1, 2], [2, 2, 2], [3, 1, 1]] : List (List Nat)).getD y []).getD x 0

/-- A configuration with small sizes. -/
def config_0 : config :=
  { ITEM_VERSION := 1, OF_SIZE := 2, ID_SIZE := 1, OBJ_MOD_MAX := 2, ELEM_MAX := 1,
    MON_TMD_MAX := 1, MFLAG_SIZE := 1, TRF_SIZE := 1, SQUARE_SIZE := 2, MAX_STORES := 1,
    quark_str := fun _ => "note" }

/-- A monster with nothing held and nothing mimicked. -/
def monster_0 : monster :=
  { race := { ridx := 3 }, fy := 1, fx := 1, hp := 10, maxhp := 12, mspeed := 110,
    energy := 5, m_timed := fun _ => 0, mflag := fun _ => 0,
    known_pstate := { flags := fun _ => 0, el_info := fun _ => { res_level := 0, flags := 0 } },
    mimicked_obj := none, held_obj := [] }

/-- A 2×2 chunk with terrain, one object, one trap and a monster table of bound 2. -/
def chunk_0 : chunk :=
  { name := some "Town", height := 2, width := 2,
    squares := fun y x =>
      { info := fun i => if i = 0 then 1 else 0, feat := y + x,
        obj := if y = 0 ∧ x = 1 then [{ zero_object with tval := 5, number := 1 }] else [],
        trap := if y = 1 ∧ x = 0 then [{ zero_trap with t_idx := 4, fy := 1 }] else [] },
    feeling := 0, feeling_squares := 0, created_at := 17,
    mon_max := 2, monsters := fun _ => monster_0 }

/-- A world whose player is dead, with non-empty caves and chunk list. -/
def dead_world : world :=
  { player := { is_dead := true, depth := 3, py := 1, px := 1 }, daycount := 2,
    cave := chunk_0, cave_k := chunk_0, chunk_list := fun _ => chunk_0, chunk_list_max := 1 }

/-- A message log of 82 messages. -/
def log_82 : message_log :=
  { messages_num := 82, message_str := fun i => if i = 0 then "newest" else "older",
    message_type := fun i => i }

/-- The artifact id byte (10th write of the record), the ego id byte (11th
write) and the 16-bit activation id (5th write from the end) of the record
that wr_item writes are each 0 exactly when the item has no such reference,
and equal the index of the referenced entry when it has one. -/
def optional_ids_zero_iff_absent (K : config) (obj : object) : Prop :=
  ∃ a e v : Nat,
    (wr_item K obj)[9]? = some (Write.byte a) ∧
    (wr_item K obj)[10]? = some (Write.byte e) ∧
    (wr_item K obj).reverse[4]? = some (Write.u16b v) ∧
    (a = 0 ↔ obj.artifact = none) ∧
    (e = 0 ↔ obj.ego = none) ∧
    (v = 0 ↔ obj.activation = none) ∧
    (∀ x, obj.artifact = some x → a = x.aidx) ∧
    (∀ x, obj.ego = some x → e = x.eidx) ∧
    (∀ x, obj.activation = some x → v = x.index)

/-- An item that references the artifact entry of index 0. -/
def item_artifact_0 : object := { zero_object with artifact := some { aidx := 0 } }

/-- An item that references the artifact entry of index 256. -/
def item_artifact_256 : object := { zero_object with artifact := some { aidx := 256 } }

/-- An item with an artifact, an ego and an activation, and two brands. -/
def item_full : object :=
  { zero_object with
    artifact := some { aidx := 7 }, ego := some { eidx := 12 },
    activation := some { index := 300 }, brands := brands_B, note := 2 }

/-! ## Dummy item records -/

/-- The record of an item differs from the record of the dummy in a reserved
field: the 16-bit marker (1st write) or the key bytes tval and sval (5th and
6th write). -/
def dummy_record_differs (K : config) (obj : object) : Prop :=
  (wr_item K obj)[0]? ≠ (wr_item K zero_object)[0]? ∨
  (wr_item K obj)[4]? ≠ (wr_item K zero_object)[4]? ∨
  (wr_item K obj)[5]? ≠ (wr_item K zero_object)[5]?

/-- An item of tval 0 and sval 3. -/
def item_sval_3 : object := { zero_object with sval := 3, number := 1 }

/-! ## Randomizer, monster memory and object memory -/

/-- The state of the random number generator that wr_randomizer reads:
`Rand_value`, `state_i`, `z0`, `z1`, `z2` and the array `STATE`. -/
structure randomizer where
  Rand_value : Nat
  state_i : Nat
  z0 : Nat
  z1 : Nat
  z2 : Nat
  STATE : Nat → Nat

/-- Function wr_randomizer (save.c 238-260); `RAND_DEG` comes from the header
of the generator and is a parameter.  The last loop runs while
`i < 59 - RAND_DEG`, so not at all when `RAND_DEG` is 59 or more. -/
def wr_randomizer (RAND_DEG : Nat) (R : randomizer) : List Write :=
  wr_u32b R.Rand_value ++
  wr_u32b R.state_i ++
  wr_u32b R.z0 ++
  wr_u32b R.z1 ++
  wr_u32b R.z2 ++
  (List.range RAND_DEG).flatMap (fun i => wr_u32b (R.STATE i)) ++
  (List.range (59 - RAND_DEG)).flatMap (fun _ => wr_u32b 0)

/-- What wr_monster_memory reads: `z_info->r_max`, the name of race `r_idx`
(`r_info[r_idx].name`, which may be NULL) and its kill count
(`l_list[r_idx].pkills`). -/
structure monster_memory where
  r_max : Nat
  name : Nat → Option String
  pkills : Nat → Nat

/-- Function wr_monster_memory (save.c 307-323). -/
def wr_monster_memory (K : config) (M : monster_memory) : List Write :=
  wr_byte K.MFLAG_SIZE ++
  (List.range M.r_max).flatMap
    (fun r_idx =>
      match M.name r_idx with
      | none => []
      | some n =>
        if M.pkills r_idx = 0 then []
        else wr_string n ++ wr_u16b (M.pkills r_idx)) ++
  wr_string "No more monsters"

/-- An item kind: the fields that wr_object_memory and wr_ignore read;
`kind_is_ignored_aware` and `kind_is_ignored_unaware` are what the functions
of these names (not in the source) return for the kind, and `note` is a
quark, 0 for none. -/
structure object_kind where
  aware : Bool
  tried : Bool
  everseen : Bool
  kind_is_ignored_aware : Bool
  kind_is_ignored_unaware : Bool
  note : Nat

/-- The byte `tmp8u` that wr_object_memory builds for one kind (save.c 337-344). -/
def wr_object_memory_tmp8u (k : object_kind) : Nat :=
  let tmp8u := 0
  let tmp8u := if k.aware then tmp8u ||| 0x01 else tmp8u
  let tmp8u := if k.tried then tmp8u ||| 0x02 else tmp8u
  let tmp8u := if k.kind_is_ignored_aware then tmp8u ||| 0x04 else tmp8u
  let tmp8u := if k.everseen then tmp8u ||| 0x08 else tmp8u
  let tmp8u := if k.kind_is_ignored_unaware then tmp8u ||| 0x10 else tmp8u
  tmp8u % 256

/-- Function wr_object_memory (save.c 327-348). -/
def wr_object_memory (K : config) (k_max : Nat) (k_info : Nat → object_kind) : List Write :=
  wr_u16b k_max ++
  wr_byte K.OF_SIZE ++
  wr_byte K.ID_SIZE ++
  wr_byte K.OBJ_MOD_MAX ++
  wr_byte K.ELEM_MAX ++
  (List.range k_max).flatMap (fun k_idx => wr_byte (wr_object_memory_tmp8u (k_info k_idx)))

/-- A generator state with distinct words. -/
def randomizer_0 : randomizer :=
  { Rand_value := 11, state_i := 3, z0 := 5, z1 := 6, z2 := 7, STATE := fun i => 100 + i }

/-- A race table of five races: race 0 has no name, race 2 has no kills. -/
def monster_memory_0 : monster_memory :=
  { r_max := 5,
    name := fun r => if r = 0 then none else some (if r = 1 then "Kobold" else "Jackal"),
    pkills := fun r => if r = 2 then 0 else 10 + r }

/-- A table of kinds: kind `k` has the five booleans of the bits of `k`. -/
def k_info_0 (k : Nat) : object_kind :=
  { aware := k.testBit 0, tried := k.testBit 1, kind_is_ignored_aware := k.testBit 2,
    everseen := k.testBit 3, kind_is_ignored_unaware := k.testBit 4,
    note := if k % 2 = 1 then k else 0 }

/-! ## The grid part of `wr_dungeon_aux` as one running state -/

/-- The flush `if (count) ...` as a step of the running state: the bytes go
to the sink, `count` and `prev_char` stay as they are. -/
def rle_flush_state (st : rle_state) : rle_state :=
  { st with out := rle_flush st }

/-- The grid part of wr_dungeon_aux (save.c 646-700) with the locals `count`
and `prev_char` and the sink as one running state: for each flag index `i`
the locals are set to 0, the plane is scanned and flushed; then the same is
done once more for the terrain.  The locals are assigned before they are
read, so the values they start with do not matter. -/
def wr_dungeon_aux_grid (K : config) (c : chunk) : List Write :=
  let st := (List.range K.SQUARE_SIZE).foldl
    (fun st i =>
      rle_flush_state
        (rle_scan c.height c.width (fun y x => (c.squares y x).info i)
          { st with count := 0, prev_char := 0 }))
    { count := 0, prev_char := 0, out := [] }
  (rle_flush_state
    (rle_scan c.height c.width (fun y x => (c.squares y x).feat)
      { st with count := 0, prev_char := 0 })).out

/-- A 2×3 plane and a 3×2 plane with the same row-major cells 0,0,0,0,1,1. -/
def grid_2x3 (y x : Nat) : Nat :=
  (([[0, 0, 0], [0, 1, 1]] : List (List Nat)).getD y []).getD x 0

/-- The 3×2 plane with the row-major cells 0,0,0,0,1,1. -/
def grid_3x2 (y x : Nat) : Nat :=
  (([[0, 0], [0, 0], [1, 1]] : List (List Nat)).getD y []).getD x 0

/-- The kind with the given five booleans and no inscription. -/
def kind_of_bools (aware tried ignored_aware everseen ignored_unaware : Bool) : object_kind :=
  { aware := aware, tried := tried, everseen := everseen,
    kind_is_ignored_aware := ignored_aware, kind_is_ignored_unaware := ignored_unaware,
    note := 0 }

/-! ## Ignore settings -/

/-- What wr_ignore reads: `ignore_size` and `ignore_level`, `z_info->e_max`,
`ITYPE_SIZE`, `e_info[i].everseen`, and the kinds with `z_info->k_max`.
`itypes i j` is byte `j` of the flag set that the loop over the ignore types
builds for ego `i` with itype_wipe, ego_is_ignored and itype_on, which are not
in the source. -/
structure ignore_state where
  ignore_size : Nat
  ignore_level : Nat → Nat
  e_max : Nat
  ITYPE_SIZE : Nat
  e_everseen : Nat → Bool
  itypes : Nat → Nat → Nat
  k_max : Nat
  k_info : Nat → object_kind

/-- First part of wr_ignore (save.c 482-506): the ignore bytes and the ego
ignore bits. -/
def wr_ignore_egos (I : ignore_state) : List Write :=
  wr_byte I.ignore_size ++
  (List.range I.ignore_size).flatMap (fun i => wr_byte (I.ignore_level i)) ++
  wr_u16b I.e_max ++
  wr_u16b I.ITYPE_SIZE ++
  (List.range I.e_max).flatMap
    (fun i =>
      wr_byte (if I.e_everseen i then 0 ||| 0x02 else 0) ++
      (List.range I.ITYPE_SIZE).flatMap (fun j => wr_byte (I.itypes i j)))

/-- The counting loop of wr_ignore (save.c 508-511): `n` after the loop. -/
def wr_ignore_count (I : ignore_state) : Nat :=
  (List.range I.k_max).foldl (fun n i => if (I.k_info i).note ≠ 0 then n + 1 else n) 0

/-- Second part of wr_ignore (save.c 508-522): the count of auto-inscriptions
and the auto-inscriptions. -/
def wr_ignore_inscriptions (K : config) (I : ignore_state) : List Write :=
  wr_u16b (wr_ignore_count I) ++
  (List.range I.k_max).flatMap
    (fun i =>
      if (I.k_info i).note = 0 then []
      else wr_s16b i ++ wr_string (K.quark_str (I.k_info i).note))

/-- Function wr_ignore (save.c 478-525). -/
def wr_ignore (K : config) (I : ignore_state) : List Write :=
  wr_ignore_egos I ++ wr_ignore_inscriptions K I

/-- The traps of a chunk in row-major order of their squares, in chain order
within a square. -/
def chunk_traps (c : chunk) : List trap :=
  (List.range c.height).flatMap
    (fun y => (List.range c.width).flatMap (fun x => (c.squares y x).trap))

/-- A living player. -/
def player_alive : player := { is_dead := false, depth := 3, py := 1, px := 1 }

/-- A chunk like `chunk_0` with a monster table of bound 3 and two traps on
one square. -/
def chunk_1 : chunk :=
  { chunk_0 with
    mon_max := 3,
    squares := fun y x =>
      { info := fun _ => 0, feat := 1, obj := [],
        trap := if y = 1 ∧ x = 0 then
            [{ zero_trap with t_idx := 4, fy := 1 }, { zero_trap with t_idx := 6, fy := 1 }]
          else if y = 0 ∧ x = 1 then [{ zero_trap with t_idx := 9, fx := 1 }]
          else [] } }

/-- Ignore settings over six kinds, of which kinds 1, 3 and 5 are inscribed. -/
def ignore_state_0 : ignore_state :=
  { ignore_size := 2, ignore_level := fun i => i + 1, e_max := 1, ITYPE_SIZE := 1,
    e_everseen := fun _ => true, itypes := fun _ _ => 0, k_max := 6, k_info := k_info_0 }

/-! ## Maximal runs -/

/-- The pairs `ps` are the decomposition of the cell sequence into maximal
runs of equal cells, a run longer than 255 being cut into pairs of length 255
followed by the remainder: every length is in [1,255], the pairs expand to the
cells, and of two neighbouring pairs with the same value the first has
length 255. -/
def maximal_runs (cells : List Nat) (ps : List (Nat × Nat)) : Prop :=
  valid_pairs ps ∧ expand ps = cells ∧
  List.Chain' (fun p q => p.2 ≠ q.2 ∨ p.1 = 255) ps

/-! ## Auto-inscription records -/

/-- The signed 16-bit values of a sequence of writes, in order. -/
def s16b_values : List Write → List Int
  | [] => []
  | Write.s16b v :: rest => v :: s16b_values rest
  | _ :: rest => s16b_values rest

/-- The indices of the kinds that have a note, in ascending order. -/
def noted_kinds (I : ignore_state) : List Nat :=
  (List.range I.k_max).filter (fun i => decide ((I.k_info i).note ≠ 0))

/-- The auto-inscriptions are count-prefixed records in ascending order: the
16-bit count is the number of kinds with a note, one record (kind index,
inscription string) follows for each of them, and the kind indices written
are strictly ascending. -/
def inscriptions_count_prefixed (K : config) (I : ignore_state) : Prop :=
  wr_ignore_inscriptions K I =
    Write.u16b (noted_kinds I).length ::
    (noted_kinds I).flatMap
      (fun i : Nat => [Write.s16b (i : Int), Write.string (K.quark_str (I.k_info i).note)]) ∧
  List.Pairwise (fun a b => a < b) (s16b_values (wr_ignore_inscriptions K I))

/-- A table of 32769 kinds of which the last two, 32767 and 32768, are inscribed. -/
def ignore_state_big : ignore_state :=
  { ignore_size := 0, ignore_level := fun _ => 0, e_max := 0, ITYPE_SIZE := 0,
    e_everseen := fun _ => false, itypes := fun _ _ => 0, k_max := 32769,
    k_info := fun i =>
      { aware := false, tried := false, everseen := false, kind_is_ignored_aware := false,
        kind_is_ignored_unaware := false, note := if 32767 ≤ i then 1 else 0 } }

/-! ## Invariant of the run-length loop -/

/-- What the loop maintains: the output is a sequence of whole pairs, and the
pairs written so far followed by the pending run are the cells read so far. -/
def rle_inv (st : rle_state) (cells : List Nat) : Prop :=
  ∃ ps : List (Nat × Nat), st.out = pair_bytes ps ∧
    expand ps ++ List.replicate st.count st.prev_char = cells ∧
    st.count ≤ 255 ∧ st.prev_char < 256


/-! # Theorems -/

/-! ## Lemmas on the run-length loop -/

theorem foldl_flatMap_eq {α β γ : Type} (f : γ → β → γ) (g : α → List β) (l : List α) (b : γ) :
    List.foldl f b (l.flatMap g) = List.foldl (fun b a => List.foldl f b (g a)) b l := by
  induction l generalizing b with
  | nil => rfl
  | cons a l ih => simp [List.flatMap_cons, List.foldl_append, ih]

theorem rle_scan_eq_foldl (height width : Nat) (cell : Nat → Nat → Nat) (st : rle_state) :
    rle_scan height width cell st = (plane_cells height width cell).foldl rle_step st := by
  unfold rle_scan plane_cells
  rw [foldl_flatMap_eq]
  simp only [List.foldl_map]

theorem pairs_of_pair_bytes (ps : List (Nat × Nat)) : pairs_of (pair_bytes ps) = ps := by
  induction ps with
  | nil => rfl
  | cons p ps ih =>
    have h : pair_bytes (p :: ps) = Write.byte p.1 :: Write.byte p.2 :: pair_bytes ps := by
      simp [pair_bytes, List.flatMap_cons]
    rw [h, pairs_of, pair_bytes.eq_1] at *
    simp [ih]

theorem pair_bytes_append (ps qs : List (Nat × Nat)) :
    pair_bytes (ps ++ qs) = pair_bytes ps ++ pair_bytes qs := by
  simp [pair_bytes, List.flatMap_append]

theorem expand_append (ps qs : List (Nat × Nat)) :
    expand (ps ++ qs) = expand ps ++ expand qs := by
  simp [expand, List.flatMap_append]

theorem out_flush_eq (ps : List (Nat × Nat)) (c v : Nat) (hc : c ≤ 255) (hv : v < 256) :
    pair_bytes ps ++ wr_byte c ++ wr_byte v = pair_bytes (ps ++ [(c, v)]) := by
  have h1 : c % 256 = c := Nat.mod_eq_of_lt (by omega)
  have h2 : v % 256 = v := Nat.mod_eq_of_lt hv
  simp [pair_bytes_append, wr_byte, h1, h2, pair_bytes, List.flatMap_cons]

theorem out_flush_eq_cons (out : List Write) (c v : Nat) (hc : c ≤ 255) (hv : v < 256)
    (qs : List (Nat × Nat)) :
    out ++ wr_byte c ++ wr_byte v ++ pair_bytes qs = out ++ pair_bytes ((c, v) :: qs) := by
  have h1 : c % 256 = c := Nat.mod_eq_of_lt (by omega)
  have h2 : v % 256 = v := Nat.mod_eq_of_lt hv
  simp [wr_byte, h1, h2, pair_bytes, List.flatMap_cons]

theorem rle_inv_step (st : rle_state) (cells : List Nat) (c : Nat) (hc : c < 256)
    (h : rle_inv st cells) : rle_inv (rle_step st c) (cells ++ [c]) := by
  obtain ⟨ps, hout, hexp, hcnt, hprev⟩ := h
  unfold rle_step
  split
  · refine ⟨ps ++ [(st.count, st.prev_char)], ?_, ?_, by simp, hc⟩
    · simp only [hout]
      exact out_flush_eq ps st.count st.prev_char hcnt hprev
    · simp only [expand_append]
      have : expand [(st.count, st.prev_char)] = List.replicate st.count st.prev_char := by
        simp [expand, List.flatMap_cons]
      rw [this, hexp]
      simp
  · rename_i hcond
    have hne : c = st.prev_char ∧ st.count ≠ MAX_UCHAR := by
      constructor
      · by_contra hx; exact hcond (Or.inl hx)
      · intro hx; exact hcond (Or.inr hx)
    have hlt : st.count + 1 ≤ 255 := by
      have := hne.2
      unfold MAX_UCHAR at this
      omega
    refine ⟨ps, hout, ?_, ?_, hprev⟩
    · have hm : (st.count + 1) % 256 = st.count + 1 := Nat.mod_eq_of_lt (by omega)
      simp only [hm]
      rw [List.replicate_succ', ← List.append_assoc, hexp, hne.1]
    · have hm : (st.count + 1) % 256 = st.count + 1 := Nat.mod_eq_of_lt (by omega)
      simp only [hm]
      exact hlt

theorem rle_inv_foldl (cs : List Nat) (hcs : ∀ c ∈ cs, c < 256) (st : rle_state)
    (cells : List Nat) (h : rle_inv st cells) :
    rle_inv (cs.foldl rle_step st) (cells ++ cs) := by
  induction cs generalizing st cells with
  | nil => simpa using h
  | cons c cs ih =>
    have h1 := rle_inv_step st cells c (hcs c (by simp)) h
    have h2 := ih (fun d hd => hcs d (by simp [hd])) (rle_step st c) (cells ++ [c]) h1
    simpa using h2

theorem plane_cells_lt (height width : Nat) (cell : Nat → Nat → Nat) :
    ∀ c ∈ plane_cells height width cell, c < 256 := by
  intro c hc
  simp only [plane_cells, List.mem_flatMap, List.mem_map] at hc
  obtain ⟨y, _, x, _, rfl⟩ := hc
  exact Nat.mod_lt _ (by decide)

theorem plane_cells_length (height width : Nat) (cell : Nat → Nat → Nat) :
    (plane_cells height width cell).length = width * height := by
  induction height with
  | zero => simp [plane_cells]
  | succ n ih =>
    simp only [plane_cells, List.range_succ, List.flatMap_append, List.length_append] at ih ⊢
    rw [ih]
    simp [List.flatMap_cons, Nat.mul_succ]

theorem expand_length (ps : List (Nat × Nat)) :
    (expand ps).length = (ps.map Prod.fst).sum := by
  induction ps with
  | nil => rfl
  | cons p ps ih =>
    have : expand (p :: ps) = List.replicate p.1 p.2 ++ expand ps := by
      simp [expand, List.flatMap_cons]
    rw [this]
    simp [ih]

/-- The output of the loop for a plane is a sequence of whole pairs whose expansion is
the row-major cell sequence. -/
theorem rle_plane_pairs (height width : Nat) (cell : Nat → Nat → Nat) :
    ∃ ps : List (Nat × Nat), rle_plane height width cell = pair_bytes ps ∧
      expand ps = plane_cells height width cell := by
  have h0 : rle_inv { count := 0, prev_char := 0, out := [] } [] :=
    ⟨[], rfl, rfl, by simp, by simp⟩
  have h := rle_inv_foldl (plane_cells height width cell) (plane_cells_lt height width cell)
    _ [] h0
  rw [← rle_scan_eq_foldl] at h
  obtain ⟨ps, hout, hexp, hcnt, hprev⟩ := h
  simp only [List.nil_append] at hexp
  unfold rle_plane rle_flush
  split
  · refine ⟨ps ++ [((rle_scan height width cell { count := 0, prev_char := 0, out := [] }).count,
        (rle_scan height width cell { count := 0, prev_char := 0, out := [] }).prev_char)], ?_, ?_⟩
    · rw [hout]; exact out_flush_eq ps _ _ hcnt hprev
    · rw [expand_append, ← hexp]
      simp [expand, List.flatMap_cons]
  · rename_i hz
    have hz0 : (rle_scan height width cell { count := 0, prev_char := 0, out := [] }).count = 0 := by
      by_contra hx; exact hz hx
    refine ⟨ps, hout, ?_⟩
    rw [← hexp, hz0]
    simp

/-- C1: for every plane (any height and width, zero included, cells read as bytes) the
bytes written by the run-length loop of wr_dungeon_aux are whole (length, value) pairs;
expanding each pair into length copies of value and concatenating in the order written
gives exactly the row-major cell sequence of the plane, the lengths sum to W*H, and the
reference decoder returns that cell sequence. -/
theorem C1_rle_expand_is_plane (height width : Nat) (cell : Nat → Nat → Nat) :
    rle_plane height width cell = pair_bytes (pairs_of (rle_plane height width cell)) ∧
    expand (pairs_of (rle_plane height width cell)) = plane_cells height width cell ∧
    ((pairs_of (rle_plane height width cell)).map Prod.fst).sum = width * height ∧
    decode_rle height width (pairs_of (rle_plane height width cell))
      = Except.ok (plane_cells height width cell) := by
  obtain ⟨ps, hps, hexp⟩ := rle_plane_pairs height width cell
  have hsum : (ps.map Prod.fst).sum = width * height := by
    rw [← expand_length, hexp, plane_cells_length]
  rw [hps, pairs_of_pair_bytes]
  refine ⟨rfl, hexp, hsum, ?_⟩
  simp [decode_rle, hsum, hexp]

theorem rle_flush_foldl_eq (cs : List Nat) (hcs : ∀ c ∈ cs, c < 256) (st : rle_state)
    (h1 : 1 ≤ st.count) (h2 : st.count ≤ 255) (h3 : st.prev_char < 256) :
    rle_flush (cs.foldl rle_step st) =
      st.out ++ pair_bytes (run_from st.prev_char st.count cs) := by
  induction cs generalizing st with
  | nil =>
    have hne : st.count ≠ 0 := by omega
    simp only [List.foldl_nil, rle_flush, hne, ne_eq, not_false_eq_true, if_true, run_from]
    rw [List.append_assoc]
    have := out_flush_eq [] st.count st.prev_char h2 h3
    simp only [pair_bytes, List.flatMap_nil, List.nil_append] at this
    rw [this]
    rfl
  | cons c cs ih =>
    have hc : c < 256 := hcs c (by simp)
    have hcs2 : ∀ d ∈ cs, d < 256 := fun d hd => hcs d (by simp [hd])
    rw [List.foldl_cons]
    by_cases hcond : c ≠ st.prev_char ∨ st.count = MAX_UCHAR
    · have hstep : rle_step st c =
          { count := 1, prev_char := c,
            out := st.out ++ wr_byte st.count ++ wr_byte st.prev_char } := by
        simp only [rle_step, hcond, if_true]
      have hrun : run_from st.prev_char st.count (c :: cs) =
          (st.count, st.prev_char) :: run_from c 1 cs := by
        have : ¬ (c = st.prev_char ∧ st.count < 255) := by
          rintro ⟨ha, hb⟩
          rcases hcond with h | h
          · exact h ha
          · unfold MAX_UCHAR at h; omega
        simp only [run_from, this, if_false]
      rw [hstep, hrun, ih hcs2 _ (by simp) (by simp) hc]
      simp only
      rw [out_flush_eq_cons st.out st.count st.prev_char h2 h3]
    · have hstep : rle_step st c = { st with count := (st.count + 1) % 256 } := by
        simp only [rle_step, hcond, if_false]
      have hboth : c = st.prev_char ∧ st.count < 255 := by
        constructor
        · by_contra hx; exact hcond (Or.inl hx)
        · have : st.count ≠ MAX_UCHAR := fun hx => hcond (Or.inr hx)
          unfold MAX_UCHAR at this; omega
      have hrun : run_from st.prev_char st.count (c :: cs) =
          run_from st.prev_char (st.count + 1) cs := by
        simp only [run_from, hboth, and_self, if_true]
      have hm : (st.count + 1) % 256 = st.count + 1 := Nat.mod_eq_of_lt (by omega)
      rw [hstep, hrun,
        ih hcs2 { count := (st.count + 1) % 256, prev_char := st.prev_char, out := st.out }
          (by simp only [hm]; omega) (by simp only [hm]; omega) h3]
      simp only [hm]

/-- The exact output of the loop for a plane: the pair (0,0) when the first cell is
not 0, then the pairs of the maximal runs cut at 255. -/
theorem rle_plane_shape (height width : Nat) (cell : Nat → Nat → Nat) :
    rle_plane height width cell =
      pair_bytes (leading_pair (plane_cells height width cell) ++
        rle_runs (plane_cells height width cell)) := by
  have hlt := plane_cells_lt height width cell
  unfold rle_plane
  rw [rle_scan_eq_foldl]
  cases hcells : plane_cells height width cell with
  | nil => rfl
  | cons c cs =>
    rw [hcells] at hlt
    have hc : c < 256 := hlt c (by simp)
    have hcs : ∀ d ∈ cs, d < 256 := fun d hd => hlt d (by simp [hd])
    rw [List.foldl_cons]
    by_cases h0 : c = 0
    · subst h0
      have hstep : rle_step { count := 0, prev_char := 0, out := [] } 0 =
          { count := 1, prev_char := 0, out := [] } := by decide
      rw [hstep, rle_flush_foldl_eq cs hcs _ (by simp) (by simp) (by simp)]
      simp [leading_pair, rle_runs]
    · have hstep : rle_step { count := 0, prev_char := 0, out := [] } c =
          { count := 1, prev_char := c, out := wr_byte 0 ++ wr_byte 0 } := by
        simp [rle_step, h0]
      rw [hstep, rle_flush_foldl_eq cs hcs _ (by simp) (by simp) hc]
      simp [leading_pair, rle_runs, h0, pair_bytes, wr_byte]

theorem run_from_length_bounds (cs : List Nat) (v n : Nat) (h1 : 1 ≤ n) (h2 : n ≤ 255) :
    ∀ p ∈ run_from v n cs, 1 ≤ p.1 ∧ p.1 ≤ 255 := by
  induction cs generalizing v n with
  | nil =>
    intro p hp
    simp only [run_from, List.mem_singleton] at hp
    subst hp
    exact ⟨h1, h2⟩
  | cons c cs ih =>
    intro p hp
    unfold run_from at hp
    split at hp
    · rename_i hcond
      exact ih v (n + 1) (by omega) (by omega) p hp
    · rcases List.mem_cons.mp hp with h | h
      · subst h; exact ⟨h1, h2⟩
      · exact ih c 1 (by omega) (by omega) p h

theorem rle_runs_length_bounds (cs : List Nat) :
    ∀ p ∈ rle_runs cs, 1 ≤ p.1 ∧ p.1 ≤ 255 := by
  cases cs with
  | nil => intro p hp; simp [rle_runs] at hp
  | cons c cs => exact run_from_length_bounds cs c 1 (by omega) (by omega)

theorem expand_cons (m u : Nat) (ps : List (Nat × Nat)) :
    expand ((m, u) :: ps) = List.replicate m u ++ expand ps := by
  simp [expand, List.flatMap_cons]

theorem run_from_expand (cs : List Nat) (v n : Nat) :
    expand (run_from v n cs) = List.replicate n v ++ cs := by
  induction cs generalizing v n with
  | nil => simp [run_from, expand_cons, expand]
  | cons c cs ih =>
    unfold run_from
    split
    · rename_i hcond
      rw [ih, List.replicate_succ', hcond.1]
      simp
    · rw [expand_cons, ih]
      simp

theorem rle_runs_expand (cs : List Nat) : expand (rle_runs cs) = cs := by
  cases cs with
  | nil => rfl
  | cons c cs => simp [rle_runs, run_from_expand]

theorem valid_pairs_tail (p : Nat × Nat) (ps : List (Nat × Nat)) (h : valid_pairs (p :: ps)) :
    valid_pairs ps :=
  fun q hq => h q (List.mem_cons_of_mem p hq)

/-- Cells can be dropped from the front of an encoding without adding pairs. -/
theorem valid_pairs_drop (ps : List (Nat × Nat)) (hv : valid_pairs ps) (k : Nat) :
    ∃ qs, valid_pairs qs ∧ expand qs = (expand ps).drop k ∧ qs.length ≤ ps.length := by
  induction ps generalizing k with
  | nil => exact ⟨[], hv, by simp [expand], by simp⟩
  | cons p ps ih =>
    obtain ⟨m, u⟩ := p
    have hm := hv (m, u) (by simp)
    have hv2 := valid_pairs_tail (m, u) ps hv
    by_cases hk : k < m
    · refine ⟨(m - k, u) :: ps, ?_, ?_, by simp⟩
      · intro q hq
        rcases List.mem_cons.mp hq with h | h
        · subst h; simp only; omega
        · exact hv2 q h
      · rw [expand_cons, expand_cons,
          List.drop_append_of_le_length (by simp; omega), List.drop_replicate]
    · obtain ⟨qs, hq1, hq2, hq3⟩ := ih hv2 (k - m)
      refine ⟨qs, hq1, ?_, by simp; omega⟩
      rw [hq2, expand_cons]
      have hkm : k = (List.replicate m u).length + (k - m) := by simp; omega
      conv_rhs => rw [hkm, List.drop_append]

/-- No encoding with lengths in [1,255] of a cell sequence has fewer pairs than the
pairs of its maximal runs cut at 255. -/
theorem run_from_minimal (cs : List Nat) (v n : Nat) (ps : List (Nat × Nat))
    (h1 : 1 ≤ n) (h2 : n ≤ 255) (hv : valid_pairs ps)
    (he : expand ps = List.replicate n v ++ cs) :
    (run_from v n cs).length ≤ ps.length := by
  induction cs generalizing v n ps with
  | nil =>
    cases ps with
    | nil =>
      have : (List.replicate n v ++ ([] : List Nat)).length = 0 := by rw [← he]; rfl
      simp at this
      omega
    | cons p ps => simp [run_from]
  | cons c cs ih =>
    unfold run_from
    split
    · rename_i hcond
      apply ih v (n + 1) ps (by omega) (by omega) hv
      rw [he, List.replicate_succ', hcond.1]
      simp
    · rename_i hcond
      cases ps with
      | nil =>
        have : (List.replicate n v ++ c :: cs).length = 0 := by rw [← he]; rfl
        simp at this
      | cons p ps =>
        obtain ⟨m, u⟩ := p
        have hm := hv (m, u) (by simp)
        simp only at hm
        have hv2 := valid_pairs_tail (m, u) ps hv
        rw [expand_cons] at he
        have hmn : m ≤ n := by
          by_contra hlt
          have hsplit : m = n + (m - n - 1 + 1) := by omega
          rw [hsplit, List.replicate_add, List.append_assoc] at he
          obtain ⟨e1, e2⟩ := List.append_inj he (by simp)
          have huv : u = v := (List.replicate_right_inj (by omega)).mp e1
          rw [List.replicate_succ, List.cons_append] at e2
          have huc : u = c := by injection e2
          exact hcond ⟨by rw [← huc, huv], by omega⟩
        have hsplit : n = m + (n - m) := by omega
        rw [hsplit, List.replicate_add, List.append_assoc] at he
        obtain ⟨_, e2⟩ := List.append_inj he (by simp)
        obtain ⟨qs, hq1, hq2, hq3⟩ := valid_pairs_drop ps hv2 (n - m)
        have hq : expand qs = List.replicate 1 c ++ cs := by
          rw [hq2, e2, List.drop_left' (by simp)]
          rfl
        have := ih c 1 qs (by omega) (by omega) hq1 hq
        simp only [List.length_cons]
        omega

theorem rle_runs_minimal (cs : List Nat) (ps : List (Nat × Nat)) (hv : valid_pairs ps)
    (he : expand ps = cs) : (rle_runs cs).length ≤ ps.length := by
  cases cs with
  | nil => simp [rle_runs]
  | cons c cs =>
    exact run_from_minimal cs c 1 ps (by omega) (by omega) hv (by rw [he]; rfl)

/-- C2: for every plane the run-length loop of wr_dungeon_aux writes one pair per maximal
run of equal cells (a run longer than 255 as pairs of length 255 and a remainder), but
before them the pair (0,0) of the empty initial run whenever the first cell is not 0.
On the 3×3 grid of scenario A, whose first cell is 1, it writes five pairs: (0,0) and
then the four pairs (2,1),(4,2),(1,3),(2,1) of the maximal runs. -/
theorem C2_scenario_A_pairs :
    (∀ (height width : Nat) (cell : Nat → Nat → Nat),
      pairs_of (rle_plane height width cell) =
        leading_pair (plane_cells height width cell) ++
          rle_runs (plane_cells height width cell)) ∧
    rle_runs (plane_cells 3 3 grid_A) = [(2, 1), (4, 2), (1, 3), (2, 1)] ∧
    rle_plane 3 3 grid_A = pair_bytes [(0, 0), (2, 1), (4, 2), (1, 3), (2, 1)] ∧
    pairs_of (rle_plane 3 3 grid_A) = [(0, 0), (2, 1), (4, 2), (1, 3), (2, 1)] ∧
    pairs_of (rle_plane 3 3 grid_A) ≠ [(2, 1), (4, 2), (1, 3), (2, 1)] := by
  refine ⟨?_, by decide, by decide, by decide, by decide⟩
  intro height width cell
  rw [rle_plane_shape, pairs_of_pair_bytes]

/-- C3: for every plane the pairs of the maximal runs that the run-length loop of
wr_dungeon_aux writes have a length byte in [1,255], but the pair written before them
when the first cell is not 0 has length 0: on the 1×1 plane holding the byte 7 the loop
writes (0,0) and then (1,7). -/
theorem C3_length_zero_pair :
    (∀ (height width : Nat) (cell : Nat → Nat → Nat),
      ∀ p ∈ rle_runs (plane_cells height width cell), 1 ≤ p.1 ∧ p.1 ≤ 255) ∧
    leading_pair (plane_cells 1 1 (fun _ _ => 7)) = [(0, 0)] ∧
    pairs_of (rle_plane 1 1 (fun _ _ => 7)) = [(0, 0), (1, 7)] ∧
    ¬ (∀ p ∈ pairs_of (rle_plane 1 1 (fun _ _ => 7)), 1 ≤ p.1 ∧ p.1 ≤ 255) := by
  refine ⟨?_, by decide, by decide, by decide⟩
  intro height width cell
  exact rle_runs_length_bounds _

/-- C4: the pairs of the maximal runs cut at 255 are a minimal encoding of every plane
under the 255 cap, but the run-length loop of wr_dungeon_aux writes one pair more, (0,0),
when the first cell is not 0: on the 1-row plane `[5,5]` it writes the two pairs (0,0)
and (2,5), while the single pair (2,5), of length in [1,255], expands to the plane. -/
theorem C4_not_minimal :
    (∀ (height width : Nat) (cell : Nat → Nat → Nat) (ps : List (Nat × Nat)),
      valid_pairs ps → expand ps = plane_cells height width cell →
      (rle_runs (plane_cells height width cell)).length ≤ ps.length) ∧
    (∀ (height width : Nat) (cell : Nat → Nat → Nat),
      (pairs_of (rle_plane height width cell)).length =
        (leading_pair (plane_cells height width cell)).length +
          (rle_runs (plane_cells height width cell)).length) ∧
    pairs_of (rle_plane 1 2 (fun _ _ => 5)) = [(0, 0), (2, 5)] ∧
    expand [(2, 5)] = plane_cells 1 2 (fun _ _ => 5) ∧
    valid_pairs [(2, 5)] ∧
    [((2 : Nat), (5 : Nat))].length < (pairs_of (rle_plane 1 2 (fun _ _ => 5))).length := by
  refine ⟨?_, ?_, by decide, by decide, ?_, by decide⟩
  · intro height width cell ps hv he
    exact rle_runs_minimal _ ps hv he
  · intro height width cell
    rw [rle_plane_shape, pairs_of_pair_bytes, List.length_append]
  · unfold valid_pairs
    decide

/-! ## Chains of brands and slays -/

theorem has_next_bytes_length (n : Nat) : (has_next_bytes n).length = n := by
  cases n with
  | zero => rfl
  | succ m => simp [has_next_bytes]

theorem has_next_bytes_succ_succ (m : Nat) :
    has_next_bytes (m + 2) = 1 :: has_next_bytes (m + 1) := by
  simp [has_next_bytes, List.replicate_succ]

theorem wr_item_brand_loop_eq (l : List brand) :
    wr_item_brand_loop l = (List.zipWith brand_record l (has_next_bytes l.length)).flatten := by
  induction l with
  | nil => rfl
  | cons b next ih =>
    cases next with
    | nil => simp [wr_item_brand_loop, has_next_bytes, brand_record]
    | cons c r =>
      rw [wr_item_brand_loop, ih]
      simp [has_next_bytes_succ_succ, brand_record]

theorem wr_item_slay_loop_eq (l : List slay) :
    wr_item_slay_loop l = (List.zipWith slay_record l (has_next_bytes l.length)).flatten := by
  induction l with
  | nil => rfl
  | cons b next ih =>
    cases next with
    | nil => simp [wr_item_slay_loop, has_next_bytes, slay_record]
    | cons c r =>
      rw [wr_item_slay_loop, ih]
      simp [has_next_bytes_succ_succ, slay_record]

theorem presence_byte_eq {α : Type} (l : List α) :
    (if l.isEmpty then 0 else 1) = (if 0 < l.length then 1 else 0) := by
  cases l <;> simp

/-- C5: for every item, wr_item writes for the brand chain of N elements a presence byte
(1 if N > 0, else 0) followed, for each brand in chain order, by name string, element,
multiplier, known byte and has-next byte, the has-next bytes being N - 1 times 1 and
then 0 (so N of them, none for N = 0); the slay chain follows in the same way with
race_flag for element.  The two brands of scenario B give presence 1 and has-next
bytes 1 then 0. -/
theorem C5_brand_slay_chains (K : config) (obj : object) :
    wr_item K obj =
      wr_item_fields K obj ++
      (wr_byte (if 0 < obj.brands.length then 1 else 0) ++
        (List.zipWith brand_record obj.brands (has_next_bytes obj.brands.length)).flatten) ++
      (wr_byte (if 0 < obj.slays.length then 1 else 0) ++
        (List.zipWith slay_record obj.slays (has_next_bytes obj.slays.length)).flatten) ++
      wr_item_rest K obj ∧
    (has_next_bytes obj.brands.length).length = obj.brands.length ∧
    (has_next_bytes obj.slays.length).length = obj.slays.length ∧
    (∀ m, has_next_bytes (m + 1) = List.replicate m 1 ++ [0]) ∧
    has_next_bytes 0 = [] ∧
    wr_item_brands { zero_object with brands := brands_B } =
      [Write.byte 1,
       Write.string "Fire", Write.s16b 1, Write.s16b 3, Write.byte 1, Write.byte 1,
       Write.string "Cold", Write.s16b 2, Write.s16b 2, Write.byte 0, Write.byte 0] := by
  refine ⟨?_, has_next_bytes_length _, has_next_bytes_length _, fun _ => rfl, rfl, ?_⟩
  · simp only [wr_item, wr_item_brands, wr_item_slays, wr_item_brand_loop_eq,
      wr_item_slay_loop_eq, presence_byte_eq]
  · decide

/-! ## Monsters and the dungeon sections -/

theorem wr_item_chain_eq (K : config) (l : List object) :
    wr_item_chain K l = (l.map (wr_item K)).flatten := by
  induction l with
  | nil => rfl
  | cons obj next ih => simp [wr_item_chain, ih]

/-- C6: for every monster holding N objects, the output of wr_monster after the monster
fields (and the optional mimicked object) is exactly N + 1 item records: wr_item of each
held object in chain order, then wr_item of the all-default dummy made by object_new;
with nothing held it is the one dummy record. -/
theorem C6_wr_monster_held_items (K : config) (mon : monster) :
    wr_monster K mon =
      wr_monster_fields K mon ++ ((mon.held_obj ++ [object_new]).map (wr_item K)).flatten ∧
    ((mon.held_obj ++ [object_new]).map (wr_item K)).length = mon.held_obj.length + 1 ∧
    wr_monster K { mon with held_obj := [] } =
      wr_monster_fields K mon ++ wr_item K object_new := by
  refine ⟨?_, by simp, ?_⟩
  · simp [wr_monster, wr_item_chain_eq]
  · simp [wr_monster, wr_item_chain, wr_monster_fields]

/-- C7: when the death flag of the player is set, wr_dungeon, wr_objects, wr_monsters,
wr_traps and wr_chunks each write nothing at all, whatever the caves and the chunk
list hold. -/
theorem C7_dead_player_writes_nothing (K : config) (W : world) (h : W.player.is_dead = true) :
    wr_dungeon K W = [] ∧ wr_objects K W = [] ∧ wr_monsters K W = [] ∧
    wr_traps K W = [] ∧ wr_chunks K W = [] := by
  simp [wr_dungeon, wr_objects, wr_objects_aux, wr_monsters, wr_monsters_aux, wr_traps,
    wr_traps_aux, wr_chunks, h]

/-- Witness of C7 on a dead player in a world with non-empty caves and chunk list. -/
theorem C7_dead_player_witness :
    dead_world.player.is_dead = true ∧
    wr_dungeon config_0 dead_world = [] ∧ wr_objects config_0 dead_world = [] ∧
    wr_monsters config_0 dead_world = [] ∧ wr_traps config_0 dead_world = [] ∧
    wr_chunks config_0 dead_world = [] :=
  ⟨rfl, C7_dead_player_writes_nothing config_0 dead_world rfl⟩

/-! ## Messages -/

theorem reverse_range_eq_map (m : Nat) :
    (List.range m).reverse = (List.range m).map (fun k => m - 1 - k) := by
  conv_lhs => rw [List.range_eq_range', List.reverse_range']
  simp

/-- C8: for a message log of n messages (n a u16b, as `num` is), wr_messages writes the
16-bit count min(n, 80) and then min(n, 80) entries, each a text string and a 16-bit
type; the k-th entry written is the message of age min(n, 80) - 1 - k, so the entries
are the min(n, 80) most recent messages, oldest first, down to age 0. -/
theorem C8_wr_messages_oldest_first (L : message_log) (h : L.messages_num < 65536) :
    wr_messages L =
      Write.u16b (min L.messages_num 80) ::
      (List.range (min L.messages_num 80)).flatMap
        (fun k => [Write.string (L.message_str (min L.messages_num 80 - 1 - k)),
                   Write.u16b (L.message_type (min L.messages_num 80 - 1 - k) % 65536)]) := by
  have h1 : L.messages_num % 65536 = L.messages_num := Nat.mod_eq_of_lt h
  have h2 : (if L.messages_num > 80 then 80 else L.messages_num) = min L.messages_num 80 := by
    split <;> omega
  have h3 : min L.messages_num 80 % 65536 = min L.messages_num 80 :=
    Nat.mod_eq_of_lt (by omega)
  simp only [wr_messages, h1, h2, reverse_range_eq_map, List.flatMap_map, wr_u16b, wr_string,
    h3, List.singleton_append, List.cons_append, List.nil_append]

/-- Witness of C8 on a log of 82 messages. -/
theorem C8_wr_messages_witness :
    log_82.messages_num < 65536 ∧
    wr_messages log_82 =
      Write.u16b (min log_82.messages_num 80) ::
      (List.range (min log_82.messages_num 80)).flatMap
        (fun k => [Write.string (log_82.message_str (min log_82.messages_num 80 - 1 - k)),
                   Write.u16b (log_82.message_type (min log_82.messages_num 80 - 1 - k) % 65536)]) :=
  ⟨by decide, C8_wr_messages_oldest_first log_82 (by decide)⟩

/-! ## Stores -/

theorem wr_item_artifact_byte (K : config) (obj : object) :
    (wr_item K obj)[9]? = some (Write.byte
      (match obj.artifact with
        | some a => a.aidx % 256
        | none => 0)) := by
  cases hA : obj.artifact <;>
    simp [wr_item, wr_item_fields, wr_byte, wr_u16b, wr_s16b, hA]

theorem wr_item_ego_byte (K : config) (obj : object) :
    (wr_item K obj)[10]? = some (Write.byte
      (match obj.ego with
        | some e => e.eidx % 256
        | none => 0)) := by
  cases hA : obj.artifact <;> cases hE : obj.ego <;>
    simp [wr_item, wr_item_fields, wr_byte, wr_u16b, wr_s16b, hA, hE]

theorem wr_item_activation_u16b (K : config) (obj : object) :
    (wr_item K obj).reverse[4]? = some (Write.u16b
      (match obj.activation with
        | some a => a.index % 65536
        | none => 0)) := by
  cases hA : obj.activation <;> by_cases hn : obj.note = 0 <;>
    simp [wr_item, wr_item_rest, wr_byte, wr_u16b, wr_s16b, wr_string, hA, hn]

/-- C10 as stated fails: an item that references the artifact entry of index 0 gets the
artifact id byte 0 although the reference is present, and one that references the entry
of index 256 gets the byte 0 as well. -/
theorem C10_present_reference_written_as_zero :
    ¬ optional_ids_zero_iff_absent config_0 item_artifact_0 ∧
    ¬ optional_ids_zero_iff_absent config_0 item_artifact_256 ∧
    (wr_item config_0 item_artifact_0)[9]? = some (Write.byte 0) ∧
    (wr_item config_0 item_artifact_256)[9]? = some (Write.byte 0) := by
  have h0 : (wr_item config_0 item_artifact_0)[9]? = some (Write.byte 0) := by decide
  have h256 : (wr_item config_0 item_artifact_256)[9]? = some (Write.byte 0) := by decide
  refine ⟨?_, ?_, h0, h256⟩
  · rintro ⟨a, e, v, ha, -, -, hz, -⟩
    rw [h0] at ha
    have : a = 0 := by injection ha with ha; injection ha with ha; exact ha.symm
    have := hz.mp this
    simp [item_artifact_0] at this
  · rintro ⟨a, e, v, ha, -, -, hz, -⟩
    rw [h256] at ha
    have : a = 0 := by injection ha with ha; injection ha with ha; exact ha.symm
    have := hz.mp this
    simp [item_artifact_256] at this

/-- C10 amended: for every item whose artifact and ego, when present, have an index in
1..255 and whose activation, when present, has an index in 1..65535, the artifact id
byte, the ego id byte and the 16-bit activation id written by wr_item are each 0 if and
only if the item has no such reference, and equal the index of the entry when it has. -/
theorem C10_optional_ids (K : config) (obj : object)
    (hA : ∀ x, obj.artifact = some x → 1 ≤ x.aidx ∧ x.aidx ≤ 255)
    (hE : ∀ x, obj.ego = some x → 1 ≤ x.eidx ∧ x.eidx ≤ 255)
    (hV : ∀ x, obj.activation = some x → 1 ≤ x.index ∧ x.index ≤ 65535) :
    optional_ids_zero_iff_absent K obj := by
  refine ⟨_, _, _, wr_item_artifact_byte K obj, wr_item_ego_byte K obj,
    wr_item_activation_u16b K obj, ?_, ?_, ?_, ?_, ?_, ?_⟩
  · cases h : obj.artifact with
    | none => simp
    | some x =>
      have := hA x h
      simp only [reduceCtorEq, iff_false]
      omega
  · cases h : obj.ego with
    | none => simp
    | some x =>
      have := hE x h
      simp only [reduceCtorEq, iff_false]
      omega
  · cases h : obj.activation with
    | none => simp
    | some x =>
      have := hV x h
      simp only [reduceCtorEq, iff_false]
      omega
  · intro x h
    have := hA x h
    simp only [h]
    omega
  · intro x h
    have := hE x h
    simp only [h]
    omega
  · intro x h
    have := hV x h
    simp only [h]
    omega

/-- Witness of C10 amended on an item with artifact 7, ego 12 and activation 300. -/
theorem C10_optional_ids_witness :
    (∀ x, item_full.artifact = some x → 1 ≤ x.aidx ∧ x.aidx ≤ 255) ∧
    (∀ x, item_full.ego = some x → 1 ≤ x.eidx ∧ x.eidx ≤ 255) ∧
    (∀ x, item_full.activation = some x → 1 ≤ x.index ∧ x.index ≤ 65535) ∧
    optional_ids_zero_iff_absent config_0 item_full :=
  ⟨by simp [item_full], by simp [item_full], by simp [item_full],
   C10_optional_ids config_0 item_full (by simp [item_full]) (by simp [item_full])
     (by simp [item_full])⟩

/-! ## Dummy item records -/

theorem wr_item_marker (K : config) (obj : object) :
    (wr_item K obj)[0]? = some (Write.u16b 65535) := by
  simp [wr_item, wr_item_fields, wr_u16b]

theorem wr_item_tval_byte (K : config) (obj : object) :
    (wr_item K obj)[4]? = some (Write.byte (obj.tval % 256)) := by
  simp [wr_item, wr_item_fields, wr_u16b, wr_byte]

theorem wr_item_sval_byte (K : config) (obj : object) :
    (wr_item K obj)[5]? = some (Write.byte (obj.sval % 256)) := by
  simp [wr_item, wr_item_fields, wr_u16b, wr_byte]

/-- The record of an item differs from the record of the dummy in the marker or the key
bytes exactly when its key bytes, tval and sval as written, are not both 0. -/
theorem dummy_record_differs_iff (K : config) (obj : object) :
    dummy_record_differs K obj ↔ (obj.tval % 256 ≠ 0 ∨ obj.sval % 256 ≠ 0) := by
  unfold dummy_record_differs
  rw [wr_item_marker, wr_item_marker, wr_item_tval_byte, wr_item_tval_byte,
    wr_item_sval_byte, wr_item_sval_byte]
  simp [zero_object]

/-- C11: a live item, one whose key bytes tval and sval as written are not both 0 (the
dummy is the zeroed object, of key 0, 0), is told apart from the dummy that ends the
floor objects or the held objects of a monster by the reserved key: for every such item
the record written by wr_item differs from the record of the dummy in the tval byte
(5th write) or the sval byte (6th write), which are both 0 in the dummy, while the
16-bit marker 0xffff is the first write of every record; so the record of a live item
is never the record of the terminator. -/
theorem C11_live_item_differs_from_dummy (K : config) (obj : object)
    (h : obj.tval % 256 ≠ 0 ∨ obj.sval % 256 ≠ 0) :
    dummy_record_differs K obj ∧
    ((wr_item K obj)[4]? ≠ (wr_item K zero_object)[4]? ∨
      (wr_item K obj)[5]? ≠ (wr_item K zero_object)[5]?) ∧
    (wr_item K zero_object)[4]? = some (Write.byte 0) ∧
    (wr_item K zero_object)[5]? = some (Write.byte 0) ∧
    (wr_item K obj)[0]? = some (Write.u16b 65535) ∧
    wr_item K obj ≠ wr_item K zero_object ∧
    wr_item K obj ≠ wr_item K object_new := by
  have hkey : (wr_item K obj)[4]? ≠ (wr_item K zero_object)[4]? ∨
      (wr_item K obj)[5]? ≠ (wr_item K zero_object)[5]? := by
    rw [wr_item_tval_byte, wr_item_tval_byte, wr_item_sval_byte, wr_item_sval_byte]
    rcases h with h | h
    · left; simp [zero_object, h]
    · right; simp [zero_object, h]
  have hne : wr_item K obj ≠ wr_item K zero_object := by
    intro he
    rcases hkey with h4 | h5
    · exact h4 (by rw [he])
    · exact h5 (by rw [he])
  refine ⟨(dummy_record_differs_iff K obj).mpr h, hkey, ?_, ?_, wr_item_marker K obj, hne, hne⟩
  · rw [wr_item_tval_byte]; rfl
  · rw [wr_item_sval_byte]; rfl

/-- Witness of C11 on an item of tval 0 and sval 3. -/
theorem C11_live_item_witness :
    (item_sval_3.tval % 256 ≠ 0 ∨ item_sval_3.sval % 256 ≠ 0) ∧
    dummy_record_differs config_0 item_sval_3 ∧
    ((wr_item config_0 item_sval_3)[4]? ≠ (wr_item config_0 zero_object)[4]? ∨
      (wr_item config_0 item_sval_3)[5]? ≠ (wr_item config_0 zero_object)[5]?) ∧
    (wr_item config_0 zero_object)[4]? = some (Write.byte 0) ∧
    (wr_item config_0 zero_object)[5]? = some (Write.byte 0) ∧
    (wr_item config_0 item_sval_3)[0]? = some (Write.u16b 65535) ∧
    wr_item config_0 item_sval_3 ≠ wr_item config_0 zero_object ∧
    wr_item config_0 item_sval_3 ≠ wr_item config_0 object_new :=
  ⟨by decide, C11_live_item_differs_from_dummy config_0 item_sval_3 (by decide)⟩

/-! ## Randomizer, monster memory and object memory -/

theorem flatMap_singleton_eq_map {α β : Type} (f : α → β) (l : List α) :
    l.flatMap (fun a => [f a]) = l.map f := by
  induction l with
  | nil => rfl
  | cons a l ih => simp [List.flatMap_cons, ih]

/-- C12: for RAND_DEG at most 59, wr_randomizer writes exactly 64 32-bit words for every
state: Rand_value, state_i, z0, z1, z2, the RAND_DEG words of STATE in index order, and
then 59 - RAND_DEG words that are 0. -/
theorem C12_wr_randomizer_fixed_size (RAND_DEG : Nat) (R : randomizer) (h : RAND_DEG ≤ 59) :
    wr_randomizer RAND_DEG R =
      [Write.u32b (R.Rand_value % 4294967296), Write.u32b (R.state_i % 4294967296),
       Write.u32b (R.z0 % 4294967296), Write.u32b (R.z1 % 4294967296),
       Write.u32b (R.z2 % 4294967296)] ++
      (List.range RAND_DEG).map (fun i => Write.u32b (R.STATE i % 4294967296)) ++
      List.replicate (59 - RAND_DEG) (Write.u32b 0) ∧
    (wr_randomizer RAND_DEG R).length = 64 := by
  have hrep : ∀ n : Nat, (List.range n).map (fun _ => Write.u32b 0) =
      List.replicate n (Write.u32b 0) := by
    intro n
    induction n with
    | zero => rfl
    | succ n ih => rw [List.range_succ, List.map_append, ih, List.replicate_succ']; rfl
  have heq : wr_randomizer RAND_DEG R =
      [Write.u32b (R.Rand_value % 4294967296), Write.u32b (R.state_i % 4294967296),
       Write.u32b (R.z0 % 4294967296), Write.u32b (R.z1 % 4294967296),
       Write.u32b (R.z2 % 4294967296)] ++
      (List.range RAND_DEG).map (fun i => Write.u32b (R.STATE i % 4294967296)) ++
      List.replicate (59 - RAND_DEG) (Write.u32b 0) := by
    simp only [wr_randomizer, wr_u32b, flatMap_singleton_eq_map, hrep, Nat.zero_mod,
      List.singleton_append, List.cons_append, List.nil_append]
  refine ⟨heq, ?_⟩
  rw [heq]
  simp only [List.length_append, List.length_cons, List.length_nil, List.length_map,
    List.length_range, List.length_replicate]
  omega

/-- Witness of C12 for RAND_DEG = 32, where 27 padding words are written. -/
theorem C12_wr_randomizer_witness :
    (32 : Nat) ≤ 59 ∧
    wr_randomizer 32 randomizer_0 =
      [Write.u32b (randomizer_0.Rand_value % 4294967296),
       Write.u32b (randomizer_0.state_i % 4294967296),
       Write.u32b (randomizer_0.z0 % 4294967296), Write.u32b (randomizer_0.z1 % 4294967296),
       Write.u32b (randomizer_0.z2 % 4294967296)] ++
      (List.range 32).map (fun i => Write.u32b (randomizer_0.STATE i % 4294967296)) ++
      List.replicate (59 - 32) (Write.u32b 0) ∧
    (wr_randomizer 32 randomizer_0).length = 64 :=
  ⟨by decide, C12_wr_randomizer_fixed_size 32 randomizer_0 (by decide)⟩

/-! ## Monster memory -/

theorem flatMap_ite_eq_filter {α β : Type} (p : α → Bool) (f : α → List β) (l : List α) :
    l.flatMap (fun a => if p a then f a else []) = (l.filter p).flatMap f := by
  induction l with
  | nil => rfl
  | cons a l ih =>
    cases hp : p a <;> simp [List.flatMap_cons, List.filter_cons, hp, ih]

theorem filter_range_pairwise (p : Nat → Bool) (n : Nat) :
    List.Pairwise (fun a b => a < b) ((List.range n).filter p) :=
  List.Pairwise.sublist (List.filter_sublist _) (List.pairwise_lt_range n)

/-- C13: for every race table and lore table (kill counts being 16-bit values),
wr_monster_memory writes the MFLAG_SIZE byte, then one (name string, 16-bit pkills) pair
for each race that has a name and a non-zero pkills, in ascending race index order, and
no pair for any other race, and then as the last write the string "No more monsters". -/
theorem C13_wr_monster_memory (K : config) (M : monster_memory)
    (h : ∀ r, r < M.r_max → M.pkills r < 65536) :
    wr_monster_memory K M =
      Write.byte (K.MFLAG_SIZE % 256) ::
      ((List.range M.r_max).filter
          (fun r => (M.name r).isSome && decide (M.pkills r ≠ 0))).flatMap
        (fun r => [Write.string ((M.name r).getD ""), Write.u16b (M.pkills r)]) ++
      [Write.string "No more monsters"] ∧
    List.Pairwise (fun a b => a < b)
      ((List.range M.r_max).filter (fun r => (M.name r).isSome && decide (M.pkills r ≠ 0))) ∧
    (wr_monster_memory K M).getLast? = some (Write.string "No more monsters") := by
  have hbody : (List.range M.r_max).flatMap
      (fun r_idx =>
        match M.name r_idx with
        | none => []
        | some n =>
          if M.pkills r_idx = 0 then []
          else wr_string n ++ wr_u16b (M.pkills r_idx)) =
      (List.range M.r_max).flatMap
        (fun r => if ((M.name r).isSome && decide (M.pkills r ≠ 0)) then
          [Write.string ((M.name r).getD ""), Write.u16b (M.pkills r)] else []) := by
    apply List.flatMap_congr
    intro r hr
    have hlt := h r (List.mem_range.mp hr)
    cases hn : M.name r with
    | none => simp
    | some n =>
      by_cases hz : M.pkills r = 0
      · simp [hz]
      · simp [hz, wr_string, wr_u16b, Nat.mod_eq_of_lt hlt]
  have heq : wr_monster_memory K M =
      Write.byte (K.MFLAG_SIZE % 256) ::
      ((List.range M.r_max).filter
          (fun r => (M.name r).isSome && decide (M.pkills r ≠ 0))).flatMap
        (fun r => [Write.string ((M.name r).getD ""), Write.u16b (M.pkills r)]) ++
      [Write.string "No more monsters"] := by
    unfold wr_monster_memory
    rw [hbody, flatMap_ite_eq_filter]
    simp [wr_byte, wr_string]
  refine ⟨heq, filter_range_pairwise _ _, ?_⟩
  rw [heq]
  exact List.getLast?_concat _

/-- Witness of C13 on a table of five races, of which three have a name and kills. -/
theorem C13_wr_monster_memory_witness :
    (∀ r, r < monster_memory_0.r_max → monster_memory_0.pkills r < 65536) ∧
    wr_monster_memory config_0 monster_memory_0 =
      [Write.byte 1, Write.string "Kobold", Write.u16b 11, Write.string "Jackal",
       Write.u16b 13, Write.string "Jackal", Write.u16b 14,
       Write.string "No more monsters"] ∧
    (wr_monster_memory config_0 monster_memory_0 =
      Write.byte (config_0.MFLAG_SIZE % 256) ::
      ((List.range monster_memory_0.r_max).filter
          (fun r => (monster_memory_0.name r).isSome &&
            decide (monster_memory_0.pkills r ≠ 0))).flatMap
        (fun r => [Write.string ((monster_memory_0.name r).getD ""),
                   Write.u16b (monster_memory_0.pkills r)]) ++
      [Write.string "No more monsters"] ∧
    List.Pairwise (fun a b => a < b)
      ((List.range monster_memory_0.r_max).filter
        (fun r => (monster_memory_0.name r).isSome &&
          decide (monster_memory_0.pkills r ≠ 0))) ∧
    (wr_monster_memory config_0 monster_memory_0).getLast? =
      some (Write.string "No more monsters")) :=
  ⟨by decide, by decide, C13_wr_monster_memory config_0 monster_memory_0 (by decide)⟩

/-! ## Planes of a chunk -/

theorem rle_step_out_append (o : List Write) (st : rle_state) (c : Nat) :
    rle_step { st with out := o ++ st.out } c =
      { rle_step st c with out := o ++ (rle_step st c).out } := by
  unfold rle_step
  split <;> simp [List.append_assoc]

theorem rle_foldl_out_append (cs : List Nat) (o : List Write) (st : rle_state) :
    cs.foldl rle_step { st with out := o ++ st.out } =
      { cs.foldl rle_step st with out := o ++ (cs.foldl rle_step st).out } := by
  induction cs generalizing st with
  | nil => rfl
  | cons c cs ih =>
    rw [List.foldl_cons, List.foldl_cons, rle_step_out_append]
    have := ih (rle_step st c)
    simpa using this

theorem rle_flush_out_append (o : List Write) (st : rle_state) :
    rle_flush { st with out := o ++ st.out } = o ++ rle_flush st := by
  unfold rle_flush
  split <;> simp [List.append_assoc]

/-- A plane scanned and flushed from any sink content appends its own encoding. -/
theorem rle_scan_reset_eq (height width : Nat) (cell : Nat → Nat → Nat) (st : rle_state) :
    (rle_flush_state (rle_scan height width cell { st with count := 0, prev_char := 0 })).out =
      st.out ++ rle_plane height width cell := by
  have h := rle_foldl_out_append (plane_cells height width cell) st.out
    { count := 0, prev_char := 0, out := [] }
  simp only [List.append_nil] at h
  have hst : ({ st with count := 0, prev_char := 0 } : rle_state) =
      { count := 0, prev_char := 0, out := st.out } := rfl
  simp only [rle_flush_state, rle_plane, rle_scan_eq_foldl, hst, h]
  exact rle_flush_out_append st.out _

theorem planes_foldl_out (height width : Nat) (cell : Nat → Nat → Nat → Nat) (l : List Nat)
    (st : rle_state) :
    (l.foldl (fun st i =>
        rle_flush_state (rle_scan height width (cell i) { st with count := 0, prev_char := 0 }))
      st).out =
    st.out ++ l.flatMap (fun i => rle_plane height width (cell i)) := by
  induction l generalizing st with
  | nil => simp
  | cons i l ih =>
    rw [List.foldl_cons, ih, rle_scan_reset_eq, List.flatMap_cons, List.append_assoc]

/-- C14: for every chunk, what wr_dungeon_aux writes between the width field and the
feeling byte, computed with one running run state that is reset at the start of each
plane, is the concatenation for i = 0 .. SQUARE_SIZE-1 of the run-length encoding of
plane i of the info flags taken on its own, followed by the run-length encoding of the
terrain plane taken on its own.  On a 2×2 chunk whose second flag plane is all 0 and
whose terrain starts with 0, the zeros are written as (4,0) and then (1,0): no run goes
from one plane into the next. -/
theorem C14_planes_encoded_separately (K : config) (c : chunk) :
    wr_dungeon_aux_grid K c =
      (List.range K.SQUARE_SIZE).flatMap
        (fun i => rle_plane c.height c.width (fun y x => (c.squares y x).info i)) ++
      rle_plane c.height c.width (fun y x => (c.squares y x).feat) ∧
    wr_dungeon_aux K c =
      wr_string (c.name.getD "Blank") ++ wr_u16b c.height ++ wr_u16b c.width ++
      wr_dungeon_aux_grid K c ++
      wr_byte c.feeling ++ wr_u16b c.feeling_squares ++ wr_s32b c.created_at ∧
    pairs_of (wr_dungeon_aux_grid config_0 chunk_0) =
      [(0, 0), (4, 1), (4, 0), (1, 0), (2, 1), (1, 2)] := by
  have hgrid : wr_dungeon_aux_grid K c =
      (List.range K.SQUARE_SIZE).flatMap
        (fun i => rle_plane c.height c.width (fun y x => (c.squares y x).info i)) ++
      rle_plane c.height c.width (fun y x => (c.squares y x).feat) := by
    unfold wr_dungeon_aux_grid
    simp only
    rw [rle_scan_reset_eq,
      planes_foldl_out c.height c.width (fun i y x => (c.squares y x).info i)]
    simp
  refine ⟨hgrid, ?_, by decide⟩
  rw [hgrid]
  unfold wr_dungeon_aux
  cases c.name <;> simp [List.append_assoc]

/-- C15: the run-length encoding of a plane depends only on its row-major cell sequence:
two planes of any dimensions with the same row-major cell sequence (hence with
W1*H1 = W2*H2) get the same bytes from the run-length loop of wr_dungeon_aux, so a run
is not broken at the end of a row. -/
theorem C15_rle_depends_on_cells_only (height1 width1 height2 width2 : Nat)
    (cell1 cell2 : Nat → Nat → Nat)
    (h : plane_cells height1 width1 cell1 = plane_cells height2 width2 cell2) :
    rle_plane height1 width1 cell1 = rle_plane height2 width2 cell2 ∧
    pairs_of (rle_plane height1 width1 cell1) = pairs_of (rle_plane height2 width2 cell2) ∧
    width1 * height1 = width2 * height2 := by
  have he : rle_plane height1 width1 cell1 = rle_plane height2 width2 cell2 := by
    unfold rle_plane
    rw [rle_scan_eq_foldl, rle_scan_eq_foldl, h]
  refine ⟨he, by rw [he], ?_⟩
  rw [← plane_cells_length height1 width1 cell1, ← plane_cells_length height2 width2 cell2, h]

/-- Witness of C15 on a 2×3 and a 3×2 plane with the cells 0,0,0,0,1,1: both are
written as the pairs (4,0),(2,1), the run of four zeros going over the end of a row. -/
theorem C15_rle_depends_on_cells_witness :
    plane_cells 2 3 grid_2x3 = plane_cells 3 2 grid_3x2 ∧
    pairs_of (rle_plane 2 3 grid_2x3) = [(4, 0), (2, 1)] ∧
    (rle_plane 2 3 grid_2x3 = rle_plane 3 2 grid_3x2 ∧
     pairs_of (rle_plane 2 3 grid_2x3) = pairs_of (rle_plane 3 2 grid_3x2) ∧
     3 * 2 = 2 * 3) :=
  ⟨by decide, by decide,
   C15_rle_depends_on_cells_only 2 3 3 2 grid_2x3 grid_3x2 (by decide)⟩

/-! ## Object memory -/

theorem tmp8u_eq_kind_of_bools (k : object_kind) :
    wr_object_memory_tmp8u k =
      wr_object_memory_tmp8u
        (kind_of_bools k.aware k.tried k.kind_is_ignored_aware k.everseen
          k.kind_is_ignored_unaware) := rfl

theorem tmp8u_bits_of_bools :
    ∀ a t ia e iu : Bool,
      wr_object_memory_tmp8u (kind_of_bools a t ia e iu) < 32 ∧
      (wr_object_memory_tmp8u (kind_of_bools a t ia e iu) &&& 0x01 ≠ 0 ↔ a = true) ∧
      (wr_object_memory_tmp8u (kind_of_bools a t ia e iu) &&& 0x02 ≠ 0 ↔ t = true) ∧
      (wr_object_memory_tmp8u (kind_of_bools a t ia e iu) &&& 0x04 ≠ 0 ↔ ia = true) ∧
      (wr_object_memory_tmp8u (kind_of_bools a t ia e iu) &&& 0x08 ≠ 0 ↔ e = true) ∧
      (wr_object_memory_tmp8u (kind_of_bools a t ia e iu) &&& 0x10 ≠ 0 ↔ iu = true) ∧
      wr_object_memory_tmp8u (kind_of_bools a t ia e iu) &&& 0xe0 = 0 := by
  decide

/-- C16: wr_object_memory writes the 16-bit kind count k_max, the four size bytes, and
then exactly k_max status bytes, one per kind in index order; in the status byte of a
kind bit 0x01 is set iff the kind is aware, 0x02 iff tried, 0x04 iff ignored when aware,
0x08 iff everseen, 0x10 iff ignored when unaware, and the three high bits are 0, so two
kinds with the same status byte have the same five booleans. -/
theorem C16_wr_object_memory (K : config) (k_max : Nat) (k_info : Nat → object_kind)
    (h : k_max < 65536) :
    wr_object_memory K k_max k_info =
      [Write.u16b k_max, Write.byte (K.OF_SIZE % 256), Write.byte (K.ID_SIZE % 256),
       Write.byte (K.OBJ_MOD_MAX % 256), Write.byte (K.ELEM_MAX % 256)] ++
      (List.range k_max).map (fun k => Write.byte (wr_object_memory_tmp8u (k_info k))) ∧
    ((List.range k_max).map
      (fun k => Write.byte (wr_object_memory_tmp8u (k_info k)))).length = k_max ∧
    (∀ k : object_kind,
      wr_object_memory_tmp8u k < 32 ∧
      (wr_object_memory_tmp8u k &&& 0x01 ≠ 0 ↔ k.aware = true) ∧
      (wr_object_memory_tmp8u k &&& 0x02 ≠ 0 ↔ k.tried = true) ∧
      (wr_object_memory_tmp8u k &&& 0x04 ≠ 0 ↔ k.kind_is_ignored_aware = true) ∧
      (wr_object_memory_tmp8u k &&& 0x08 ≠ 0 ↔ k.everseen = true) ∧
      (wr_object_memory_tmp8u k &&& 0x10 ≠ 0 ↔ k.kind_is_ignored_unaware = true) ∧
      wr_object_memory_tmp8u k &&& 0xe0 = 0) ∧
    (∀ k k2 : object_kind, wr_object_memory_tmp8u k = wr_object_memory_tmp8u k2 →
      k.aware = k2.aware ∧ k.tried = k2.tried ∧
      k.kind_is_ignored_aware = k2.kind_is_ignored_aware ∧ k.everseen = k2.everseen ∧
      k.kind_is_ignored_unaware = k2.kind_is_ignored_unaware) := by
  have hbits : ∀ k : object_kind,
      wr_object_memory_tmp8u k < 32 ∧
      (wr_object_memory_tmp8u k &&& 0x01 ≠ 0 ↔ k.aware = true) ∧
      (wr_object_memory_tmp8u k &&& 0x02 ≠ 0 ↔ k.tried = true) ∧
      (wr_object_memory_tmp8u k &&& 0x04 ≠ 0 ↔ k.kind_is_ignored_aware = true) ∧
      (wr_object_memory_tmp8u k &&& 0x08 ≠ 0 ↔ k.everseen = true) ∧
      (wr_object_memory_tmp8u k &&& 0x10 ≠ 0 ↔ k.kind_is_ignored_unaware = true) ∧
      wr_object_memory_tmp8u k &&& 0xe0 = 0 := by
    intro k
    rw [tmp8u_eq_kind_of_bools]
    exact tmp8u_bits_of_bools _ _ _ _ _
  refine ⟨?_, by simp, hbits, ?_⟩
  · have hm : ∀ k, wr_object_memory_tmp8u (k_info k) % 256 =
        wr_object_memory_tmp8u (k_info k) := by
      intro k
      have := (hbits (k_info k)).1
      exact Nat.mod_eq_of_lt (by omega)
    simp only [wr_object_memory, wr_u16b, wr_byte, flatMap_singleton_eq_map, hm,
      Nat.mod_eq_of_lt h, List.singleton_append, List.cons_append, List.nil_append]
  · intro k k2 he
    obtain ⟨_, a1, a2, a3, a4, a5, _⟩ := hbits k
    obtain ⟨_, b1, b2, b3, b4, b5, _⟩ := hbits k2
    rw [he] at a1 a2 a3 a4 a5
    refine ⟨?_, ?_, ?_, ?_, ?_⟩
    · exact Bool.eq_iff_iff.mpr (a1.symm.trans b1)
    · exact Bool.eq_iff_iff.mpr (a2.symm.trans b2)
    · exact Bool.eq_iff_iff.mpr (a3.symm.trans b3)
    · exact Bool.eq_iff_iff.mpr (a4.symm.trans b4)
    · exact Bool.eq_iff_iff.mpr (a5.symm.trans b5)

/-- Witness of C16 on a table of three kinds. -/
theorem C16_wr_object_memory_witness :
    (3 : Nat) < 65536 ∧
    wr_object_memory config_0 3 k_info_0 =
      [Write.u16b 3, Write.byte (config_0.OF_SIZE % 256), Write.byte (config_0.ID_SIZE % 256),
       Write.byte (config_0.OBJ_MOD_MAX % 256), Write.byte (config_0.ELEM_MAX % 256)] ++
      (List.range 3).map (fun k => Write.byte (wr_object_memory_tmp8u (k_info_0 k))) :=
  ⟨by decide, (C16_wr_object_memory config_0 3 k_info_0 (by decide)).1⟩

/-! ## Traps and monsters of a chunk -/

theorem wr_trap_chain_eq (K : config) (l : List trap) :
    wr_trap_chain K l = l.flatMap (wr_trap K) := by
  induction l with
  | nil => rfl
  | cons t next ih => simp [wr_trap_chain, ih, List.flatMap_cons]

theorem flatten_map_eq_flatMap {α β : Type} (f : α → List β) (l : List α) :
    (l.map f).flatten = l.flatMap f := by
  induction l with
  | nil => rfl
  | cons a l ih => simp [List.flatMap_cons, ih]

theorem flatMap_flatMap {α β γ : Type} (f : α → List β) (g : β → List γ) (l : List α) :
    (l.flatMap f).flatMap g = l.flatMap (fun a => (f a).flatMap g) := by
  induction l with
  | nil => rfl
  | cons a l ih => simp [List.flatMap_cons, List.flatMap_append, ih]

theorem wr_trap_eq (K : config) (t : trap) :
    wr_trap K t =
      [Write.byte (t.t_idx % 256), Write.byte (t.fy % 256), Write.byte (t.fx % 256),
       Write.byte (t.xtra % 256)] ++
      (List.range K.TRF_SIZE).map (fun i => Write.byte (t.flags i % 256)) := by
  simp only [wr_trap, wr_byte, flatMap_singleton_eq_map, List.singleton_append,
    List.cons_append, List.nil_append]

/-- C17: for every chunk holding N traps in all and a living player, wr_traps_aux writes
the TRF_SIZE byte and then exactly N + 1 trap records, each of 4 + TRF_SIZE bytes: the
N traps in row-major order of their squares and in chain order within a square, then
one dummy record all of whose bytes are 0. -/
theorem C17_wr_traps_aux (K : config) (p : player) (c : chunk) (h : p.is_dead = false) :
    wr_traps_aux K p c =
      Write.byte (K.TRF_SIZE % 256) ::
      ((chunk_traps c ++ [zero_trap]).map (wr_trap K)).flatten ∧
    ((chunk_traps c ++ [zero_trap]).map (wr_trap K)).length = (chunk_traps c).length + 1 ∧
    (∀ t : trap, (wr_trap K t).length = 4 + K.TRF_SIZE ∧
      ∀ w ∈ wr_trap K t, ∃ v, w = Write.byte v) ∧
    wr_trap K zero_trap = List.replicate (4 + K.TRF_SIZE) (Write.byte 0) := by
  refine ⟨?_, by simp, ?_, ?_⟩
  · simp only [wr_traps_aux, h, Bool.false_eq_true, if_false, wr_trap_chain_eq, wr_byte,
      List.map_append, List.flatten_append, flatten_map_eq_flatMap, chunk_traps,
      flatMap_flatMap, List.singleton_append, List.cons_append, List.map_cons, List.map_nil,
      List.flatMap_cons, List.flatMap_nil, List.append_nil, List.nil_append]
    simp
  · intro t
    rw [wr_trap_eq]
    refine ⟨by simp; omega, ?_⟩
    intro w hw
    simp only [List.mem_append, List.mem_cons, List.mem_singleton, List.mem_map,
      List.not_mem_nil, or_false] at hw
    rcases hw with (h1 | h1 | h1 | h1) | ⟨i, _, h1⟩
    · exact ⟨_, h1⟩
    · exact ⟨_, h1⟩
    · exact ⟨_, h1⟩
    · exact ⟨_, h1⟩
    · exact ⟨_, h1.symm⟩
  · rw [wr_trap_eq]
    have hrep : ∀ n : Nat, (List.range n).map (fun i => Write.byte (zero_trap.flags i % 256)) =
        List.replicate n (Write.byte 0) := by
      intro n
      induction n with
      | zero => rfl
      | succ n ih => rw [List.range_succ, List.map_append, ih, List.replicate_succ']; rfl
    rw [hrep, List.replicate_add]
    simp [zero_trap, List.replicate_succ]

/-- Witness of C17 on a chunk with one trap on square (0,1) and two on square (1,0). -/
theorem C17_wr_traps_aux_witness :
    player_alive.is_dead = false ∧
    wr_traps_aux config_0 player_alive chunk_1 =
      [Write.byte 1,
       Write.byte 9, Write.byte 0, Write.byte 1, Write.byte 0, Write.byte 0,
       Write.byte 4, Write.byte 1, Write.byte 0, Write.byte 0, Write.byte 0,
       Write.byte 6, Write.byte 1, Write.byte 0, Write.byte 0, Write.byte 0,
       Write.byte 0, Write.byte 0, Write.byte 0, Write.byte 0, Write.byte 0] ∧
    wr_traps_aux config_0 player_alive chunk_1 =
      Write.byte (config_0.TRF_SIZE % 256) ::
      ((chunk_traps chunk_1 ++ [zero_trap]).map (wr_trap config_0)).flatten :=
  ⟨rfl, by decide, (C17_wr_traps_aux config_0 player_alive chunk_1 rfl).1⟩

/-- C19: for every chunk whose monster table bound cave_monster_max is M (a 16-bit
value) and a living player, wr_monsters_aux writes the 16-bit value M and then the
monster records of the indices 1 .. M-1 in ascending order and no other: M - 1 records
when M is at least 1, which is not the number M written in front, and no record when M
is 0. -/
theorem C19_wr_monsters_aux (K : config) (p : player) (c : chunk) (h : p.is_dead = false)
    (hM : c.mon_max < 65536) :
    wr_monsters_aux K p c =
      Write.u16b c.mon_max ::
      ((List.range' 1 (c.mon_max - 1)).map (fun i => wr_monster K (c.monsters i))).flatten ∧
    ((List.range' 1 (c.mon_max - 1)).map (fun i => wr_monster K (c.monsters i))).length =
      c.mon_max - 1 ∧
    (∀ i, i ∈ List.range' 1 (c.mon_max - 1) ↔ 1 ≤ i ∧ i < c.mon_max) ∧
    List.Pairwise (fun a b => a < b) (List.range' 1 (c.mon_max - 1)) ∧
    (1 ≤ c.mon_max →
      ((List.range' 1 (c.mon_max - 1)).map (fun i => wr_monster K (c.monsters i))).length ≠
        c.mon_max) ∧
    (c.mon_max = 0 → wr_monsters_aux K p c = [Write.u16b 0]) := by
  have hlen : ((List.range' 1 (c.mon_max - 1)).map
      (fun i => wr_monster K (c.monsters i))).length = c.mon_max - 1 := by
    simp
  have heq : wr_monsters_aux K p c =
      Write.u16b c.mon_max ::
      ((List.range' 1 (c.mon_max - 1)).map (fun i => wr_monster K (c.monsters i))).flatten := by
    simp only [wr_monsters_aux, h, Bool.false_eq_true, if_false, wr_u16b,
      Nat.mod_eq_of_lt hM, flatten_map_eq_flatMap, List.singleton_append]
  refine ⟨heq, hlen, ?_, List.pairwise_lt_range' 1 (c.mon_max - 1), ?_, ?_⟩
  · intro i
    rw [List.mem_range'_1]
    omega
  · intro h1
    rw [hlen]
    omega
  · intro h0
    rw [heq, h0]
    rfl

/-- Witness of C19 on a chunk of monster table bound 3: two records follow the 3. -/
theorem C19_wr_monsters_aux_witness :
    player_alive.is_dead = false ∧ chunk_1.mon_max < 65536 ∧
    wr_monsters_aux config_0 player_alive chunk_1 =
      Write.u16b 3 :: (wr_monster config_0 monster_0 ++ wr_monster config_0 monster_0) ∧
    wr_monsters_aux config_0 player_alive chunk_1 =
      Write.u16b chunk_1.mon_max ::
      ((List.range' 1 (chunk_1.mon_max - 1)).map
        (fun i => wr_monster config_0 (chunk_1.monsters i))).flatten :=
  ⟨rfl, by decide, by decide,
   (C19_wr_monsters_aux config_0 player_alive chunk_1 rfl (by decide)).1⟩

/-! ## Auto-inscriptions -/

theorem count_foldl_eq (p : Nat → Bool) (l : List Nat) (a : Nat) :
    l.foldl (fun n i => if p i = true then n + 1 else n) a = a + (l.filter p).length := by
  induction l generalizing a with
  | nil => simp
  | cons i l ih =>
    rw [List.foldl_cons, ih]
    cases hp : p i <;> simp [List.filter_cons, hp]
    omega

theorem wr_ignore_count_eq (I : ignore_state) :
    wr_ignore_count I =
      ((List.range I.k_max).filter (fun i => decide ((I.k_info i).note ≠ 0))).length := by
  have h := count_foldl_eq (fun i => decide ((I.k_info i).note ≠ 0)) (List.range I.k_max) 0
  simp only [decide_eq_true_eq, Nat.zero_add] at h
  exact h

/-- What the second part of wr_ignore writes, the count being a 16-bit value: the
number of kinds with a note, then for each of them its index through wr_s16b and its
inscription. -/
theorem wr_ignore_inscriptions_eq (K : config) (I : ignore_state) (h : I.k_max < 65536) :
    wr_ignore_inscriptions K I =
      Write.u16b (noted_kinds I).length ::
      (noted_kinds I).flatMap
        (fun i : Nat => wr_s16b i ++ wr_string (K.quark_str (I.k_info i).note)) := by
  have hle : (noted_kinds I).length ≤ I.k_max := by
    have := List.length_filter_le (fun i => decide ((I.k_info i).note ≠ 0))
      (List.range I.k_max)
    simpa [noted_kinds] using this
  have hbody : (List.range I.k_max).flatMap
      (fun i =>
        if (I.k_info i).note = 0 then []
        else wr_s16b i ++ wr_string (K.quark_str (I.k_info i).note)) =
      (List.range I.k_max).flatMap
        (fun i => if decide ((I.k_info i).note ≠ 0) = true then
          wr_s16b i ++ wr_string (K.quark_str (I.k_info i).note) else []) := by
    apply List.flatMap_congr
    intro i _
    by_cases hz : (I.k_info i).note = 0 <;> simp [hz]
  have hcount : wr_ignore_count I = (noted_kinds I).length := wr_ignore_count_eq I
  unfold wr_ignore_inscriptions
  rw [hbody, flatMap_ite_eq_filter, hcount]
  simp only [wr_u16b, List.singleton_append]
  rw [Nat.mod_eq_of_lt (by omega)]
  rfl

theorem wr_s16b_of_lt (i : Nat) (hi : i < 32768) : wr_s16b i = [Write.s16b i] := by
  have hw : ((i : Int) + 32768) % 65536 - 32768 = (i : Int) := by omega
  simp only [wr_s16b, hw]

theorem s16b_values_records (l : List Nat) (f : Nat → String) (n : Nat) :
    s16b_values
      (Write.u16b n :: l.flatMap (fun i : Nat => [Write.s16b (i : Int), Write.string (f i)])) =
      l.map (fun i : Nat => (i : Int)) := by
  have h : ∀ l : List Nat,
      s16b_values (l.flatMap (fun i : Nat => [Write.s16b (i : Int), Write.string (f i)])) =
        l.map (fun i : Nat => (i : Int)) := by
    intro l
    induction l with
    | nil => rfl
    | cons i l ih =>
      rw [List.flatMap_cons, List.map_cons]
      simp only [List.cons_append, List.nil_append, s16b_values]
      show (i : Int) :: s16b_values
        (l.flatMap fun i : Nat => [Write.s16b (i : Int), Write.string (f i)]) = _
      rw [ih]
  simp only [s16b_values, h]

theorem mem_noted_kinds (I : ignore_state) (i : Nat) :
    i ∈ noted_kinds I ↔ i < I.k_max ∧ (I.k_info i).note ≠ 0 := by
  simp [noted_kinds, List.mem_filter]

theorem noted_kinds_big : noted_kinds ignore_state_big = [32767, 32768] := by
  unfold noted_kinds
  have hk : ignore_state_big.k_max = 32767 + 1 + 1 := rfl
  have h0 : (List.range 32767).filter
      (fun i => decide ((ignore_state_big.k_info i).note ≠ 0)) = [] := by
    apply List.filter_eq_nil_iff.mpr
    intro a ha
    have hlt := List.mem_range.mp ha
    have hnote : (ignore_state_big.k_info a).note = 0 := by
      simp only [ignore_state_big]
      rw [if_neg (by omega)]
    simp [hnote]
  rw [hk, List.range_succ, List.range_succ, List.filter_append, List.filter_append, h0]
  decide

/-- C20 as stated fails: in a table of 32769 kinds of which 32767 and 32768 have a note,
wr_ignore writes the count 2 and then the records of index 32767 and of index -32768,
the index 32768 being written as a signed 16-bit value: the written kind indices are not
ascending and the second is not the index of its kind. -/
theorem C20_kind_32768_written_negative :
    ¬ inscriptions_count_prefixed config_0 ignore_state_big ∧
    wr_ignore_inscriptions config_0 ignore_state_big =
      [Write.u16b 2, Write.s16b 32767, Write.string "note",
       Write.s16b (-32768), Write.string "note"] ∧
    s16b_values (wr_ignore_inscriptions config_0 ignore_state_big) = [32767, -32768] := by
  have hout : wr_ignore_inscriptions config_0 ignore_state_big =
      [Write.u16b 2, Write.s16b 32767, Write.string "note",
       Write.s16b (-32768), Write.string "note"] := by
    rw [wr_ignore_inscriptions_eq config_0 ignore_state_big (by decide), noted_kinds_big]
    decide
  have hvals : s16b_values (wr_ignore_inscriptions config_0 ignore_state_big) =
      [32767, -32768] := by
    rw [hout]
    rfl
  refine ⟨?_, hout, hvals⟩
  rintro ⟨_, hasc⟩
  rw [hvals] at hasc
  have hlt : (32767 : Int) < -32768 := by
    have := List.rel_of_pairwise_cons hasc (List.mem_singleton.mpr rfl)
    exact this
  omega

/-- C20 amended: for every table of at most 32768 item kinds, the 16-bit
auto-inscription count written by wr_ignore equals the number of (kind index,
inscription string) records written after it, there is exactly one record for each kind
that has a note and none for a kind without one, and the kind indices of the records,
as written, are strictly ascending. -/
theorem C20_inscriptions_ascending (K : config) (I : ignore_state) (h : I.k_max ≤ 32768) :
    inscriptions_count_prefixed K I ∧
    wr_ignore K I = wr_ignore_egos I ++ wr_ignore_inscriptions K I ∧
    (∀ i, i ∈ noted_kinds I ↔ i < I.k_max ∧ (I.k_info i).note ≠ 0) ∧
    List.Pairwise (fun a b => a < b) (noted_kinds I) ∧
    s16b_values (wr_ignore_inscriptions K I) = (noted_kinds I).map (fun i : Nat => (i : Int)) := by
  have heq : wr_ignore_inscriptions K I =
      Write.u16b (noted_kinds I).length ::
      (noted_kinds I).flatMap
        (fun i : Nat =>
          [Write.s16b (i : Int), Write.string (K.quark_str (I.k_info i).note)]) := by
    have hbody : (noted_kinds I).flatMap
        (fun i : Nat => wr_s16b i ++ wr_string (K.quark_str (I.k_info i).note)) =
        (noted_kinds I).flatMap
          (fun i : Nat =>
            [Write.s16b (i : Int), Write.string (K.quark_str (I.k_info i).note)]) := by
      apply List.flatMap_congr
      intro i hi
      have hlt := ((mem_noted_kinds I i).mp hi).1
      rw [wr_s16b_of_lt i (by omega)]
      rfl
    rw [wr_ignore_inscriptions_eq K I (by omega), hbody]
  have hnoted : List.Pairwise (fun a b => a < b) (noted_kinds I) :=
    filter_range_pairwise _ _
  have hvals : s16b_values (wr_ignore_inscriptions K I) =
      (noted_kinds I).map (fun i : Nat => (i : Int)) := by
    rw [heq, s16b_values_records]
  refine ⟨⟨heq, ?_⟩, rfl, mem_noted_kinds I, hnoted, hvals⟩
  rw [hvals]
  exact List.Pairwise.map _ (fun a b hab => Int.ofNat_lt.mpr hab) hnoted

/-- Witness of C20 amended on six kinds of which kinds 1, 3 and 5 are inscribed. -/
theorem C20_inscriptions_ascending_witness :
    ignore_state_0.k_max ≤ 32768 ∧
    wr_ignore_inscriptions config_0 ignore_state_0 =
      [Write.u16b 3, Write.s16b 1, Write.string "note", Write.s16b 3, Write.string "note",
       Write.s16b 5, Write.string "note"] ∧
    inscriptions_count_prefixed config_0 ignore_state_0 :=
  ⟨by decide, by decide,
   (C20_inscriptions_ascending config_0 ignore_state_0 (by decide)).1⟩

/-! ## Exact shape of the run-length output -/

theorem run_from_chain (cs : List Nat) (v n : Nat) (h2 : n ≤ 255) :
    List.Chain' (fun p q : Nat × Nat => p.2 ≠ q.2 ∨ p.1 = 255) (run_from v n cs) ∧
    ∃ m rest, run_from v n cs = (m, v) :: rest := by
  induction cs generalizing v n with
  | nil => exact ⟨List.chain'_singleton _, n, [], rfl⟩
  | cons c cs ih =>
    unfold run_from
    split
    · rename_i hcond
      exact ih v (n + 1) (by omega)
    · rename_i hcond
      obtain ⟨hch, m, rest, hrun⟩ := ih c 1 (by omega)
      refine ⟨?_, n, _, rfl⟩
      rw [hrun] at hch ⊢
      rw [List.chain'_cons]
      refine ⟨?_, hch⟩
      simp only
      by_cases hcv : c = v
      · right
        have : ¬ n < 255 := fun hlt => hcond ⟨hcv, hlt⟩
        omega
      · left
        exact fun hvc => hcv hvc.symm

theorem rle_runs_maximal (cs : List Nat) : maximal_runs cs (rle_runs cs) := by
  refine ⟨rle_runs_length_bounds cs, rle_runs_expand cs, ?_⟩
  cases cs with
  | nil => exact List.chain'_nil
  | cons c cs => exact (run_from_chain cs c 1 (by omega)).1

theorem expand_eq_nil_of_valid (ps : List (Nat × Nat)) (hv : valid_pairs ps)
    (he : expand ps = []) : ps = [] := by
  cases ps with
  | nil => rfl
  | cons p ps =>
    obtain ⟨m, u⟩ := p
    have hm := hv (m, u) (by simp)
    simp only at hm
    have : (expand ((m, u) :: ps)).length = 0 := by rw [he]; rfl
    rw [expand_cons] at this
    simp at this
    omega

theorem expand_head_of_valid (m u : Nat) (ps : List (Nat × Nat)) (hm : 1 ≤ m) :
    expand ((m, u) :: ps) = u :: (List.replicate (m - 1) u ++ expand ps) := by
  rw [expand_cons]
  have : m = (m - 1) + 1 := by omega
  conv_lhs => rw [this, List.replicate_succ]
  rfl

/-- A pair of a canonical encoding cannot be a strict beginning of a longer run. -/
theorem maximal_runs_no_longer_run (m u : Nat) (ps : List (Nat × Nat)) (m2 : Nat)
    (qs : List (Nat × Nat)) (hv : valid_pairs ((m, u) :: ps))
    (hch : List.Chain' (fun p q : Nat × Nat => p.2 ≠ q.2 ∨ p.1 = 255) ((m, u) :: ps))
    (hm2 : m2 ≤ 255) (hlt : m < m2)
    (he : List.replicate m u ++ expand ps = List.replicate m2 u ++ expand qs) : False := by
  have hsplit : m2 = m + (m2 - m - 1 + 1) := by omega
  rw [hsplit, List.replicate_add, List.append_assoc] at he
  obtain ⟨_, e2⟩ := List.append_inj he (by simp)
  rw [List.replicate_succ, List.cons_append] at e2
  cases ps with
  | nil => simp [expand] at e2
  | cons p ps =>
    obtain ⟨m3, u3⟩ := p
    have hm3 := hv (m3, u3) (by simp)
    simp only at hm3
    rw [expand_head_of_valid m3 u3 ps hm3.1] at e2
    have hu : u3 = u := by injection e2
    rw [List.chain'_cons] at hch
    rcases hch.1 with h | h
    · exact h hu.symm
    · simp only at h
      omega

theorem maximal_runs_unique (cs : List Nat) (ps qs : List (Nat × Nat))
    (hp : maximal_runs cs ps) (hq : maximal_runs cs qs) : ps = qs := by
  induction ps generalizing cs qs with
  | nil =>
    obtain ⟨_, hpe, _⟩ := hp
    obtain ⟨hqv, hqe, _⟩ := hq
    have : expand qs = [] := by rw [hqe, ← hpe]; rfl
    exact (expand_eq_nil_of_valid qs hqv this).symm
  | cons p ps ih =>
    obtain ⟨hpv, hpe, hpc⟩ := hp
    obtain ⟨hqv, hqe, hqc⟩ := hq
    obtain ⟨m, u⟩ := p
    have hm := hpv (m, u) (by simp)
    simp only at hm
    cases qs with
    | nil =>
      have : expand ((m, u) :: ps) = [] := by rw [hpe, ← hqe]; rfl
      have := expand_eq_nil_of_valid _ hpv this
      simp at this
    | cons q qs =>
      obtain ⟨m2, u2⟩ := q
      have hm2 := hqv (m2, u2) (by simp)
      simp only at hm2
      have he : expand ((m, u) :: ps) = expand ((m2, u2) :: qs) := by rw [hpe, hqe]
      have hu : u = u2 := by
        rw [expand_head_of_valid m u ps hm.1, expand_head_of_valid m2 u2 qs hm2.1] at he
        injection he
      subst hu
      rw [expand_cons, expand_cons] at he
      have hmm : m = m2 := by
        rcases Nat.lt_trichotomy m m2 with hlt | heq | hgt
        · exact (maximal_runs_no_longer_run m u ps m2 qs hpv hpc hm2.2 hlt he).elim
        · exact heq
        · exact (maximal_runs_no_longer_run m2 u qs m ps hqv hqc hm.2 hgt he.symm).elim
      subst hmm
      obtain ⟨_, e2⟩ := List.append_inj he rfl
      have hps : maximal_runs (expand ps) ps :=
        ⟨valid_pairs_tail _ _ hpv, rfl, List.Chain'.tail hpc⟩
      have hqs : maximal_runs (expand ps) qs :=
        ⟨valid_pairs_tail _ _ hqv, e2.symm, List.Chain'.tail hqc⟩
      rw [ih (expand ps) qs hps hqs]

/-- C18: the exact output of the run-length loop of wr_dungeon_aux for one plane: no
pair for an empty plane; if the first cell in row-major order is 0, exactly the
decomposition of the cell sequence into maximal runs cut at 255; if the first cell is
not 0, the pair (0,0) followed by that same decomposition.  So a pair of length 0 is
written iff the plane is not empty and starts with a cell that is not 0; it is then the
first pair and has value 0, and every other pair has its length in [1,255]. -/
theorem C18_rle_exact_shape (height width : Nat) (cell : Nat → Nat → Nat) :
    rle_plane height width cell = pair_bytes (pairs_of (rle_plane height width cell)) ∧
    (plane_cells height width cell = [] → pairs_of (rle_plane height width cell) = []) ∧
    (∀ c cs, plane_cells height width cell = c :: cs → c = 0 →
      pairs_of (rle_plane height width cell) = rle_runs (plane_cells height width cell)) ∧
    (∀ c cs, plane_cells height width cell = c :: cs → c ≠ 0 →
      pairs_of (rle_plane height width cell) =
        (0, 0) :: rle_runs (plane_cells height width cell)) ∧
    maximal_runs (plane_cells height width cell) (rle_runs (plane_cells height width cell)) ∧
    (∀ ps, maximal_runs (plane_cells height width cell) ps →
      ps = rle_runs (plane_cells height width cell)) ∧
    ((∃ p ∈ pairs_of (rle_plane height width cell), p.1 = 0) ↔
      ∃ c cs, plane_cells height width cell = c :: cs ∧ c ≠ 0) := by
  have hshape : pairs_of (rle_plane height width cell) =
      leading_pair (plane_cells height width cell) ++
        rle_runs (plane_cells height width cell) := by
    rw [rle_plane_shape, pairs_of_pair_bytes]
  have hbounds := rle_runs_length_bounds (plane_cells height width cell)
  refine ⟨?_, ?_, ?_, ?_, rle_runs_maximal _, ?_, ?_⟩
  · rw [rle_plane_shape, pairs_of_pair_bytes]
  · intro h0
    rw [hshape, h0]
    rfl
  · intro c cs hc h0
    rw [hshape, hc]
    simp [leading_pair, h0]
  · intro c cs hc h0
    rw [hshape, hc]
    simp [leading_pair, h0]
  · intro ps hps
    exact maximal_runs_unique _ ps _ hps (rle_runs_maximal _)
  · rw [hshape]
    constructor
    · rintro ⟨p, hp, hp0⟩
      rcases List.mem_append.mp hp with h | h
      · cases hcells : plane_cells height width cell with
        | nil => rw [hcells] at h; simp [leading_pair] at h
        | cons c cs =>
          refine ⟨c, cs, rfl, ?_⟩
          intro hc0
          rw [hcells] at h
          simp [leading_pair, hc0] at h
      · have := hbounds p h
        omega
    · rintro ⟨c, cs, hc, h0⟩
      refine ⟨(0, 0), ?_, rfl⟩
      rw [hc]
      simp [leading_pair, h0]

end Save
